import Mathlib

/-!
Verification development for the Sentient Computational Manifold repository.

The definitions below are a shallow embedding of the Python sources:
  * src/runtime/utils.py    (simulation generators)
  * src/runtime/engine.py   (SCMExecutionEngine)
  * src/graph/composer.py   (SCMGraphComposer)
  * src/adaptive/adaptation_manager.py (AdaptationManager)
  * src/monitoring/tracer.py (SCMTracer and the module level helpers)
  * src/agents/orchestrator.py (SCMAgentOrchestrator)

Python machine floats are modelled as rationals, Python dicts as association
lists with insert-or-overwrite semantics that keep the first insertion
position, and every call to the `random` module is modelled by passing the
drawn value (or choice) as an explicit oracle argument.  File system writes
are modelled by returning the file name and contents instead of performing
them.  Free-text log messages are abstracted where no claim depends on their
exact characters.
-/

namespace SCM

/-- Association-list update with Python dict semantics: an existing key keeps
its position and gets the new value, a fresh key is appended at the end. -/
def upsert {α : Type} : List (String × α) → String → α → List (String × α)
  | [], k, v => [(k, v)]
  | (k0, v0) :: rest, k, v =>
      if k0 = k then (k0, v) :: rest else (k0, v0) :: upsert rest k v

/-- Association-list lookup (Python `d.get(k)`). -/
def lookupA {α : Type} : List (String × α) → String → Option α
  | [], _ => none
  | (k0, v0) :: rest, k => if k0 = k then some v0 else lookupA rest k

/-- Python `k in d` on a dict. -/
def keyMem {α : Type} (m : List (String × α)) (k : String) : Bool :=
  (lookupA m k).isSome

/-- Whether `pat` is a prefix of `s` (on code points). -/
def listStartsWith (pat : List Char) (s : List Char) : Bool :=
  match pat, s with
  | [], _ => true
  | _ :: _, [] => false
  | p :: ps, c :: cs => p == c && listStartsWith ps cs

/-- Occurrence search on code points. -/
def hasSubAux (pat : List Char) : List Char → Bool
  | [] => pat.isEmpty
  | c :: rest => listStartsWith pat (c :: rest) || hasSubAux pat rest

/-- Python substring containment `pat in s`. -/
def containsSub (s pat : String) : Bool :=
  hasSubAux pat.data s.data

/-- One step of Python `s.split(sep)` for a non-empty separator: greedy
leftmost non-overlapping matches; the fuel is at least the string length so
the final arm is never reached. -/
def splitAux (sep : List Char) : ℕ → List Char → List Char → List (List Char)
  | _, [], acc => [acc.reverse]
  | 0, s, acc => [acc.reverse ++ s]
  | fuel + 1, c :: rest, acc =>
      if listStartsWith sep (c :: rest) then
        acc.reverse :: splitAux sep fuel ((c :: rest).drop sep.length) []
      else splitAux sep fuel rest (c :: acc)

/-- Python `s.split(sep)` for the non-empty separators this code uses. -/
def splitOnStr (s sep : String) : List String :=
  (splitAux sep.data (s.data.length + 1) s.data []).map fun cs => ⟨cs⟩

/-- ASCII case folding of Python `str.lower()` (all names this code lowers
are ASCII). -/
def lowerChar (c : Char) : Char :=
  if 'A' ≤ c ∧ c ≤ 'Z' then Char.ofNat (c.toNat + 32) else c

/-- Python `s.lower()`. -/
def lowerStr (s : String) : String :=
  ⟨s.data.map lowerChar⟩

/-- Value universe covering everything the mock generators, the bundled
models and the engine metadata of this repository produce: numbers (ints and
floats collapsed to rationals), strings, booleans, numeric lists
(timeseries), and flat string-keyed objects. -/
inductive JVal where
  | num (q : ℚ)
  | str (s : String)
  | boolv (b : Bool)
  | numList (xs : List ℚ)
  | strMap (fields : List (String × String))
deriving DecidableEq

/-- Python dict from output names to values. -/
abbrev Dict := List (String × JVal)

/-- Python `round(q, 4)`.  Mathlib `round` is round-half-up while Python uses
round-half-even; the two differ only on exact half ticks and no claim in this
development depends on the tie direction. -/
def round4 (q : ℚ) : ℚ := (round (q * 10000) : ℤ) / 10000

/-- Python `round(q, 3)` (same tie-direction remark as `round4`). -/
def round3 (q : ℚ) : ℚ := (round (q * 1000) : ℤ) / 1000

/-- One entry of a node's `outputs` list (engine reads `output_name` with
`.get` and `data_type_ref` with default `""`). -/
structure OutputDef where
  output_name : Option String := none
  data_type_ref : String := ""
deriving DecidableEq

/-- One entry of a node's `inputs` list. -/
structure InputDef where
  input_name : Option String := none
  data_type_ref : String := ""
  source : Option String := none
deriving DecidableEq

/-- Oracle for the random draws of `_simulate_execution` in
src/runtime/utils.py: `mockVal n` is the value `_generate_mock_output_value`
returns for the output named `n` (one fresh draw per generated output), and
`confDraw` is the `random.uniform(0.5, 0.99)` draw used for the synthesized
confidence. -/
structure SimDraws where
  mockVal : String → JVal
  confDraw : ℚ

/-- Generation loop of `_simulate_execution` (src/runtime/utils.py lines
73-81): outputs without a truthy `output_name` are skipped, each named
output gets one mock value, and the boolean accumulator is the
`has_confidence` flag (set when a generated name contains "confidence"
case-insensitively). -/
def simFold (draws : SimDraws) : List OutputDef → Dict × Bool → Dict × Bool
  | [], acc => acc
  | d :: rest, acc =>
      match d.output_name with
      | some n =>
          if n = "" then simFold draws rest acc
          else simFold draws rest
            (upsert acc.1 n (draws.mockVal n),
             acc.2 || containsSub (lowerStr n) "confidence")
      | none => simFold draws rest acc

/-- Shallow embedding of `_simulate_execution` (src/runtime/utils.py lines
67-95): run the generation loop, then, if neither the `has_confidence` flag
nor the final key scan finds a confidence-like key, add a `confidence` entry
valued `round(uniform(0.5, 0.99), 4)`.  The `inputs` argument and the
simulated `time.sleep` do not affect the result and are omitted. -/
def simulateExecution (draws : SimDraws) (outputDefs : List OutputDef) : Dict :=
  let folded := simFold draws outputDefs ([], false)
  let simulated := folded.1
  let has_confidence := folded.2
  if has_confidence then simulated
  else if simulated.any (fun kv => containsSub (lowerStr kv.1) "confidence") then
    simulated
  else
    upsert simulated "confidence" (JVal.num (round4 draws.confDraw))

/-- Engine execution metadata (`self.execution_metadata`), fields appearing
as they are set. -/
structure Metadata where
  execution_mode : Option String := none
  confidence_source : Option String := none
  simulated_confidence : Option JVal := none
  execution_duration_ms : Option ℚ := none
deriving DecidableEq

/-- Outcome oracle for `_execute_real_model` (src/runtime/engine.py lines
104-178): whether the referenced implementation file is missing, fails to
load, lacks a callable `run_model`, raises, returns a non-dict, or returns
the dict `output`. -/
inductive ModelInvocation where
  | fileMissing
  | loadError
  | noRunModel
  | runError
  | notDict
  | returns (output : Dict)
deriving DecidableEq

/-- Declared output names of a node, with falsy (empty or missing) names
dropped as in `{out.get('output_name') for out in outputs if
out.get('output_name')}`. -/
def expectedOutputNames (outputs : List OutputDef) : List String :=
  outputs.filterMap fun d =>
    match d.output_name with
    | some n => if n = "" then none else some n
    | none => none

/-- Shallow embedding of `_execute_real_model`: every failure shape returns
`none` (signalling fallback); a returned dict is accepted only if its keys
are a superset of the declared output names, in which case the execution
mode, the confidence source and `simulated_confidence` (probing exactly the
keys `confidence`, `forecast_confidence`, `prediction_confidence` in that
order) are recorded. -/
def executeRealModel (outputs : List OutputDef) (inv : ModelInvocation)
    (meta : Metadata) : Option Dict × Metadata :=
  match inv with
  | .returns output =>
      if (expectedOutputNames outputs).all (fun n => keyMem output n) then
        let meta1 := { meta with execution_mode := some "real_model_success" }
        let meta2 :=
          match lookupA output "confidence" with
          | some v => { meta1 with confidence_source := some "model",
                                   simulated_confidence := some v }
          | none =>
            match lookupA output "forecast_confidence" with
            | some v => { meta1 with confidence_source := some "model",
                                     simulated_confidence := some v }
            | none =>
              match lookupA output "prediction_confidence" with
              | some v => { meta1 with confidence_source := some "model",
                                       simulated_confidence := some v }
              | none => { meta1 with confidence_source := some "none" }
        (some output, meta2)
      else (none, meta)
  | _ => (none, meta)

/-- Execution logic block of a node. -/
structure ExecLogic where
  type : Option String := none
  reference : Option String := none
  parameters : Dict := []
deriving DecidableEq

/-- One resilience policy entry (`condition` read with default `""`,
`action_params` a dict). -/
structure ResiliencePolicy where
  condition : Option String := none
  action : Option String := none
  action_params : Dict := []
deriving DecidableEq

/-- Adaptation strategy block.  `trigger_condition` and `trigger_details`
model the `_trigger_condition` and `_trigger_details` keys that
`check_adaptation_triggers` writes into the strategy dict when a trigger
fires; they are absent (`none`) in an authored node. -/
structure AdaptStrategy where
  trigger : Option String := none
  metric_ref : Option String := none
  method : Option String := none
  method_params : Dict := []
  trigger_condition : Option String := none
  trigger_details : Option Dict := none
deriving DecidableEq

/-- Node record as the Python code reads it from the loaded JSON dict. -/
structure NodeData where
  id : String := "unknown_node"
  version : Option String := none
  execution_logic : Option ExecLogic := none
  inputs : List InputDef := []
  outputs : List OutputDef := []
  security_access_level : Option String := none
  state_type : Option String := none
  state_memory_ref : Option String := none
  resilience_policy : List ResiliencePolicy := []
  adaptation_strategy : Option AdaptStrategy := none
  rationale : Option String := none
  author_agent_ref : Option String := none
  creation_timestamp : Option String := none
  derived_from : Option String := none
deriving DecidableEq

/-- Result of one `execute` call: the returned boolean together with the
engine's `execution_result` and `execution_metadata` state afterwards. -/
structure EngineOutcome where
  success : Bool
  execution_result : Dict
  execution_metadata : Metadata
deriving DecidableEq

/-- Tail of `execute` (src/runtime/engine.py lines 259-275): a null result is
a structured failure, otherwise the result is stored and
`_handle_observability` records the wall-clock duration. -/
def finishResult (result : Option Dict) (meta : Metadata) (node_id : String)
    (durationMs : ℚ) : EngineOutcome :=
  match result with
  | none =>
      ⟨false, [("error", .str ("Execution failed for node " ++ node_id))], meta⟩
  | some r =>
      ⟨true, r, { meta with execution_duration_ms := some durationMs }⟩

/-- Shallow embedding of `SCMExecutionEngine.execute` (src/runtime/engine.py
lines 180-283) for a node whose data is loaded.  `inv` is the outcome oracle
for the real-model invocation, `draws` the simulation randomness, `exc` an
oracle for an unexpected exception raised inside the `try` block (the
`except` arm stores `{"error": str(e)}` and returns `False`; the partially
written metadata of that arm is abstracted to the metadata at entry), and
`durationMs` the measured wall-clock span.  Input resolution (lines 209-224)
only filters or fabricates the inputs handed to the dispatch target and
cannot change any outcome modelled here, with one exception kept faithfully:
on the simulation-fallback path the dict comprehension
`{inp["input_name"]: ...}` raises `KeyError` when some input definition lacks
an `input_name`. -/
def execute (node : NodeData) (inv : ModelInvocation) (draws : SimDraws)
    (exc : Option String) (durationMs : ℚ) : EngineOutcome :=
  match node.execution_logic with
  | none =>
      ⟨false, [("error", .str "Missing execution_logic in node data.")], {}⟩
  | some logic =>
    match exc with
    | some msg => ⟨false, [("error", .str msg)], {}⟩
    | none =>
      if logic.type = some "Model_Ref" then
        let meta1 : Metadata := { execution_mode := some "real_model_attempt" }
        let attempt := executeRealModel node.outputs inv meta1
        match attempt.1 with
        | some output => finishResult (some output) attempt.2 node.id durationMs
        | none =>
            let meta3 := { attempt.2 with
                           execution_mode := some "simulation_fallback" }
            if node.inputs.any (fun i => i.input_name.isNone) then
              ⟨false, [("error", .str "KeyError: input_name")], meta3⟩
            else
              let result := simulateExecution draws node.outputs
              let meta4 :=
                match lookupA result "confidence" with
                | some v => { meta3 with
                              confidence_source := some "simulation",
                              simulated_confidence := some v }
                | none => { meta3 with confidence_source := some "none" }
              finishResult (some result) meta4 node.id durationMs
      else if logic.type = some "Subgraph_Ref" ∨ logic.type = some "External_Call" then
        let meta1 : Metadata := { execution_mode := some "simulation" }
        let result := simulateExecution draws node.outputs
        finishResult (some result) meta1 node.id durationMs
      else
        ⟨false, [("error", .str "Unsupported execution type")], {}⟩

/-! Graph composer (src/graph/composer.py).  A loaded store is the list of
nodes in load order; the Python `self.nodes` dict keys are unique, so stores
considered by the planning theorems carry a `Nodup` hypothesis where it
matters.  Only the identifier and the `depends_on` references feed the DAG,
so the composer layer works on that projection. -/

/-- Projection of a loaded node used by `build_dag` and the planner:
its identifier and the `node_ref` of each `depends_on` entry. -/
structure GNode where
  id : String
  deps : List (Option String)
deriving DecidableEq

/-- Identifiers of a loaded store, in load order. -/
def nodeIds (nodes : List GNode) : List String := nodes.map (fun n => n.id)

/-- Validity flag computed by `build_dag` (lines 73-105): every dependency
must carry a `node_ref` that resolves to a loaded node. -/
def buildDagOk (nodes : List GNode) : Bool :=
  nodes.all fun n => n.deps.all fun d =>
    match d with
    | none => false
    | some r => decide (r ∈ nodeIds nodes)

/-- Adjacency list built by `build_dag`: an edge `dep -> node` is appended
for every resolvable dependency, iterating nodes in load order and each
node's dependencies in declaration order. -/
def adjOf (nodes : List GNode) (u : String) : List String :=
  nodes.foldr
    (fun n acc =>
      (n.deps.filterMap fun d =>
        if d = some u ∧ u ∈ nodeIds nodes then some n.id else none) ++ acc)
    []

/-- In-degree recorded by `build_dag` for the node with identifier `v`: one
per dependency of that node whose reference resolves. -/
def indegreeOf (nodes : List GNode) (v : String) : ℕ :=
  (nodes.map fun n =>
    if n.id = v then
      (n.deps.filter fun d =>
        match d with
        | some r => decide (r ∈ nodeIds nodes)
        | none => false).length
    else 0).sum

/-- One pass of the inner `for v in self.adj[u]` loop of
`generate_execution_plan`: decrement the residual in-degree of every
adjacent node in order, enqueueing a node the moment its count reaches
zero. -/
def decStep (adjTargets : List String) (deg : List (String × ℕ))
    (queue : List String) : List (String × ℕ) × List String :=
  adjTargets.foldl
    (fun acc v =>
      let deg0 := acc.1
      let becameZero := deg0.any fun kv => kv.1 = v ∧ kv.2 = 1
      (deg0.map (fun kv => if kv.1 = v then (kv.1, kv.2 - 1) else kv),
       if becameZero then acc.2 ++ [v] else acc.2))
    (deg, queue)

/-- Kahn worklist loop of `generate_execution_plan` (lines 116-124), with an
explicit fuel bound: the loop pops at most once per initial seed plus once
per edge, so the fuel passed by `generateExecutionPlan` never runs out. -/
def kahnLoop (adj : String → List String) :
    ℕ → List String → List (String × ℕ) → List String →
    List String × List (String × ℕ)
  | 0, _, deg, plan => (plan, deg)
  | _ + 1, [], deg, plan => (plan, deg)
  | fuel + 1, u :: rest, deg, plan =>
      let step := decStep (adj u) deg rest
      kahnLoop adj fuel step.2 step.1 (plan ++ [u])

/-- Result of `generate_execution_plan`: the linear plan on success, or the
list of nodes with positive residual in-degree (the reported cycle set) on
failure. -/
inductive PlanResult where
  | plan (order : List String)
  | cycle (nodesInCycle : List String)
deriving DecidableEq

/-- Seed of the Kahn queue (line 113): the zero-in-degree nodes, in their
position in the loaded-node collection. -/
def seedQueue (nodes : List GNode) : List String :=
  nodes.filterMap fun n =>
    if indegreeOf nodes n.id = 0 then some n.id else none

/-- Working copy of the in-degree map (line 112), keyed in load order. -/
def degMap (nodes : List GNode) : List (String × ℕ) :=
  nodes.map fun n => (n.id, indegreeOf nodes n.id)

/-- Kahn worklist run of `generate_execution_plan`: the produced plan and the
residual in-degree map. -/
def kahnRun (nodes : List GNode) : List String × List (String × ℕ) :=
  kahnLoop (adjOf nodes)
    (nodes.length + (nodes.map fun n => n.deps.length).sum + 1)
    (seedQueue nodes) (degMap nodes) []

/-- Shallow embedding of `SCMGraphComposer.generate_execution_plan` (lines
107-135): seed a FIFO queue with the zero-in-degree nodes in load order, run
Kahn's algorithm, and declare a cycle when fewer nodes than the store holds
were planned, reporting every node whose residual in-degree is still
positive (in the in-degree map's key order, which is load order). -/
def generateExecutionPlan (nodes : List GNode) : PlanResult :=
  let out := kahnRun nodes
  if out.1.length = nodes.length then .plan out.1
  else .cycle (out.2.filterMap fun kv => if 0 < kv.2 then some kv.1 else none)

/-! Adaptation manager (src/adaptive/adaptation_manager.py). -/

/-- Numeric value of a list of decimal digit characters. -/
def digitsVal (cs : List Char) : ℕ :=
  cs.foldl (fun a c => 10 * a + (c.toNat - 48)) 0

/-- Parse one semver numeric identifier from the front of a character list:
a non-empty digit run without a leading zero (except the single digit `0`),
returning its value and the remaining characters. -/
def parseNumPart (cs : List Char) : Option (ℕ × List Char) :=
  let ds := cs.takeWhile Char.isDigit
  let rest := cs.dropWhile Char.isDigit
  if ds.isEmpty then none
  else if 1 < ds.length ∧ ds.head? = some '0' then none
  else some (digitsVal ds, rest)

/-- Acceptable tail after the `major.minor.patch` core: nothing, or a
pre-release (after a hyphen) or build (after a plus) suffix.  The suffix
grammar is simplified to a non-empty run of alphanumerics, hyphens and dots;
no claim in this development exercises suffixed versions. -/
def semverSuffixOk (cs : List Char) : Bool :=
  match cs with
  | [] => true
  | c :: rest =>
      (c = '-' ∨ c = '+') ∧ ¬rest.isEmpty ∧
        rest.all fun d => d.isAlphanum ∨ d = '-' ∨ d = '.' ∨ d = '+'

/-- Model of `semver.VersionInfo.parse` restricted to the data this code
uses: the `major.minor.patch` core (strict: no leading zeros, all parts
present). -/
def parseSemver (s : String) : Option (ℕ × ℕ × ℕ) :=
  match parseNumPart s.data with
  | none => none
  | some (M, r1) =>
    match r1 with
    | '.' :: r1b =>
      match parseNumPart r1b with
      | none => none
      | some (N, r2) =>
        match r2 with
        | '.' :: r2b =>
          match parseNumPart r2b with
          | none => none
          | some (P, r3) => if semverSuffixOk r3 then some (M, N, P) else none
        | _ => none
    | _ => none

/-- Python `p.isdigit()`: non-empty and all decimal digits. -/
def digitPart (p : String) : Bool :=
  !p.isEmpty && p.data.all Char.isDigit

/-- Shallow embedding of `AdaptationManager._get_next_version` (lines
47-59): bump the minor component of a parsed semantic version (resetting
patch and dropping any suffix, as `bump_minor` does); on a parse failure,
fall back to a manual increment when the string is three dot-separated
all-digit parts, else append `-adapted`. -/
def getNextVersion (v : String) : String :=
  match parseSemver v with
  | some (M, N, _) => s!"{M}.{N + 1}.0"
  | none =>
      let parts := splitOnStr v "."
      match parts with
      | [p0, p1, _] =>
          if parts.all digitPart then
            p0 ++ "." ++ toString (digitsVal p1.data + 1) ++ ".0"
          else v ++ "-adapted"
      | _ => v ++ "-adapted"

/-- Numeric projection of the engine metadata consumed by
`check_adaptation_triggers` and `agent_post_execution_check` (the data model
fixes `simulated_confidence` to a 0-1 scalar and the duration to
milliseconds, so both reads are numeric). -/
structure MetricsView where
  simulated_confidence : Option ℚ := none
  execution_duration_ms : Option ℚ := none
deriving DecidableEq

/-- Trigger evaluation of `check_adaptation_triggers` (lines 70-103): the
`triggered_condition` and `trigger_details` pair, or `none` when no
condition fired.  `feedbackDraw` and `scheduledDraw` are the
`random.random()` oracles of the `External_Feedback` and `Scheduled_Review`
branches. -/
def firedCondition (strategy : AdaptStrategy) (metrics : MetricsView)
    (feedbackDraw scheduledDraw : ℚ) : Option (String × Dict) :=
  if strategy.trigger = some "Performance_Degradation" then
        match metrics.simulated_confidence with
        | some c =>
            if c < 3/4 then
              some ("Low Confidence",
                    [("confidence", .num c), ("threshold", .num (3/4))])
            else
              match metrics.execution_duration_ms with
              | some t =>
                  if 1000 < t then
                    some ("High Execution Time",
                          [("execution_time_ms", .num t),
                           ("threshold_ms", .num 1000)])
                  else none
              | none => none
        | none =>
            match metrics.execution_duration_ms with
            | some t =>
                if 1000 < t then
                  some ("High Execution Time",
                        [("execution_time_ms", .num t),
                         ("threshold_ms", .num 1000)])
                else none
            | none => none
      else if strategy.trigger = some "External_Feedback" then
        if feedbackDraw < 1/20 then
          some ("Simulated External Feedback",
                [("feedback_source", .str "simulated_monitor")])
        else none
      else if strategy.trigger = some "Scheduled_Review" then
        if scheduledDraw < 1/50 then
          some ("Simulated Scheduled Review Due",
                [("reason", .str "Simulated time elapsed")])
        else none
      else none

/-- Shallow embedding of `AdaptationManager.check_adaptation_triggers`
(lines 61-111).  The returned pair is the post-state of the `node_data`
argument (the Python code mutates the strategy dict in place when a trigger
fires, adding `_trigger_condition` and `_trigger_details`) together with the
returned strategy, which aliases the mutated one.  `feedbackDraw` and
`scheduledDraw` are the `random.random()` oracles of the `External_Feedback`
and `Scheduled_Review` branches. -/
def checkAdaptationTriggers (node : NodeData) (metrics : MetricsView)
    (feedbackDraw scheduledDraw : ℚ) : NodeData × Option AdaptStrategy :=
  match node.adaptation_strategy with
  | none => (node, none)
  | some strategy =>
    match firedCondition strategy metrics feedbackDraw scheduledDraw with
    | none => (node, none)
    | some cd =>
        let strategy2 := { strategy with trigger_condition := some cd.1,
                                         trigger_details := some cd.2 }
        ({ node with adaptation_strategy := some strategy2 }, some strategy2)

/-- Random draws consumed by `perform_adaptation`: the `random.choice` index
over the parameter keys, the `random.uniform(-0.1, 0.1)` perturbation draw,
and the `random.choice([-1, 1])` unit nudge. -/
structure MethodDraws where
  paramChoice : ℕ := 0
  adjDraw : ℚ := 0
  nudgePlus : Bool := true
deriving DecidableEq

/-- Method-specific transform applied to the deep copy inside
`perform_adaptation` (lines 128-175).  Every branch of the Python code
touches at most the `execution_logic` dict of the copy (plus the free-text
rationale, which is modelled as an abstract tag since no claim reads it), so
the transform is expressed on the execution-logic component alone. -/
def applyMethodLogic (logic? : Option ExecLogic) (method : Option String)
    (draws : MethodDraws) : Option ExecLogic :=
  if method = some "Retrain_Model" then
    match logic? with
    | some logic =>
        if logic.type = some "Model_Ref" then
          match logic.reference with
          | some r =>
              match splitOnStr r "_v" with
              | [p0, p1] =>
                  some { logic with reference := some (p0 ++ "_v" ++ getNextVersion p1) }
              | _ => logic?
          | none => logic?
        else logic?
    | none => logic?
  else if method = some "Adjust_Parameters" then
    match logic? with
    | some logic =>
        if logic.parameters.isEmpty then logic?
        else
          let keys := logic.parameters.map fun kv => kv.1
          let k := keys.getD (draws.paramChoice % keys.length) ""
          match lookupA logic.parameters k with
          | some (.num c) =>
              let adjustment := draws.adjDraw * c + (if draws.nudgePlus then 1 else -1)
              let params2 := upsert logic.parameters k (.num (round3 (c + adjustment)))
              some { logic with parameters := params2 }
          | _ => logic?
    | none => logic?
  else logic?

/-- Result of `perform_adaptation` on its success path: the new node record,
the name of the file it is persisted under, and the returned identifier.
The appended `AdaptationLogEntry` and the I/O failure path (which deletes
the partial file and returns `None`) are not needed by any claim and are
omitted. -/
structure AdaptationOutcome where
  new_node : NodeData
  file_name : String
  new_node_id : String
deriving DecidableEq

/-- Shallow embedding of `AdaptationManager.perform_adaptation` (lines
113-238), success path.  The original `node_data` is only read: the
transform is applied to a `copy.deepcopy`, versioning and identity are
stamped on the copy, and the write targets the file named after the new
identifier. -/
def performAdaptation (node : NodeData) (strategy : AdaptStrategy)
    (draws : MethodDraws) (nowTs : String)
    (agentRef : String := "agent_adaptor_v1") : AdaptationOutcome :=
  let original_node_id := node.id
  let new1 := { node with
                execution_logic := applyMethodLogic node.execution_logic strategy.method draws }
  let original_version := new1.version.getD "0.0.0"
  let next_version := getNextVersion original_version
  let new2 := { new1 with version := some next_version }
  let new_node_id :=
    match splitOnStr original_node_id "_v" with
    | [p0, _] => p0 ++ "_v" ++ next_version
    | _ => original_node_id ++ "_v" ++ next_version
  let new3 := { new2 with
                id := new_node_id,
                rationale := some ("adapted:" ++ strategy.trigger_condition.getD "Unknown"),
                creation_timestamp := some nowTs,
                author_agent_ref := some agentRef,
                derived_from := some original_node_id }
  { new_node := new3,
    file_name := new_node_id ++ ".json",
    new_node_id := new_node_id }

/-- Shallow embedding of `AdaptationManager.evaluate_and_adapt` (lines
240-273): a failed pre-open check of the node file returns `none`, otherwise
the trigger check runs and, on a fired trigger, `perform_adaptation` is
called on the (mutated) node data. -/
def evaluateAndAdapt (fileOk : Bool) (node : NodeData) (metrics : MetricsView)
    (feedbackDraw scheduledDraw : ℚ) (draws : MethodDraws) (nowTs : String) :
    Option String :=
  if ¬fileOk then none
  else
    let checked := checkAdaptationTriggers node metrics feedbackDraw scheduledDraw
    match checked.2 with
    | none => none
    | some strat => some (performAdaptation checked.1 strat draws nowTs).new_node_id

/-! Tracer (src/monitoring/tracer.py).  The append-only event file and the
in-memory session summary are modelled as lists inside a tracer state; the
module-level `_active_tracer` global is an `Option` of that state threaded
explicitly. -/

/-- One structured record of the trace event stream. -/
structure TraceEvent where
  timestamp : String
  trace_id : String
  event_type : String
  node_id : Option String
  data : Dict
deriving DecidableEq

/-- State of an initialized `SCMTracer` session: the events appended so far
plus the incrementally updated session summary fields touched by
`log_event`. -/
structure TracerState where
  session_id : String
  events : List TraceEvent := []
  nodes_executed : List String := []
  error_events : List (String × Option String × JVal) := []
  agent_decisions : List (String × Dict) := []
deriving DecidableEq

/-- Shallow embedding of `SCMTracer.log_event` (lines 47-66): append the
event to the stream, then update the summary (`AGENT_DECISION` feeds the
decision list, a `NODE_ERROR` event or any data with `status = "FAILED"`
feeds the error list, a `NODE_END` with a node id adds the node to the
executed set once). -/
def TracerState.logEvent (t : TracerState) (now event_type : String)
    (data : Dict) (node_id : Option String) : TracerState :=
  let ev : TraceEvent := ⟨now, t.session_id, event_type, node_id, data⟩
  let t1 := { t with events := t.events ++ [ev] }
  if event_type = "AGENT_DECISION" then
    { t1 with agent_decisions := t1.agent_decisions ++ [(now, data)] }
  else if event_type = "NODE_ERROR" ∨ lookupA data "status" = some (.str "FAILED") then
    let err := (lookupA data "error").getD (.str "Unknown")
    { t1 with error_events := t1.error_events ++ [(now, node_id, err)] }
  else if event_type = "NODE_END" ∧ node_id.isSome then
    let nid := node_id.getD ""
    if nid ∈ t1.nodes_executed then t1
    else { t1 with nodes_executed := t1.nodes_executed ++ [nid] }
  else t1

/-- Shallow embedding of the module-level `log_trace_event` helper (lines
111-115) together with the `get_tracer` warning behaviour (lines 103-109):
the pair holds the global tracer state after the call and the number of
warnings this call emitted (`get_tracer` warns exactly when no session was
initialized, and then the log call is a no-op). -/
def logTraceEvent (st : Option TracerState) (now event_type : String)
    (data : Dict) (node_id : Option String) : Option TracerState × ℕ :=
  match st with
  | none => (none, 1)
  | some t => (some (t.logEvent now event_type data node_id), 0)

/-- One pending `log_trace_event` call. -/
structure LogCall where
  now : String := ""
  event_type : String := ""
  data : Dict := []
  node_id : Option String := none
deriving DecidableEq

/-- Run a sequence of `log_trace_event` calls against the global tracer
state, returning the final state and the total number of warnings
emitted. -/
def runLogCalls (st : Option TracerState) (calls : List LogCall) :
    Option TracerState × ℕ :=
  calls.foldl
    (fun acc c =>
      let out := logTraceEvent acc.1 c.now c.event_type c.data c.node_id
      (out.1, acc.2 + out.2))
    (st, 0)

/-- Shallow embedding of `initialize_tracer` (lines 98-101): replace the
global tracer with a freshly created session. -/
def initializeTracer (_st : Option TracerState) (session_id : String) :
    Option TracerState :=
  some { session_id := session_id }

/-! Agent orchestrator (src/agents/orchestrator.py). -/

/-- Shallow embedding of `agent_pre_execution_check` (lines 250-276): the
security and state observations have no effect; when the node declares an
adaptation strategy, a `random.random()` draw below 0.1 simulates an
adaptation trigger and sets the halt flag. -/
def agentPreExecutionCheck (node : NodeData) (halt : Bool) (preDraw : ℚ) :
    Bool :=
  if node.adaptation_strategy.isSome ∧ preDraw < 1/10 then true else halt

/-- Matching test of the post-check fallback scan (line 293): the policy's
condition text contains "confidence" case-insensitively and its action is
`Fallback`. -/
def confidenceFallbackPolicy (p : ResiliencePolicy) : Bool :=
  containsSub (lowerStr (p.condition.getD "")) "confidence" &&
    p.action == some "Fallback"

/-- Shallow embedding of `agent_post_execution_check` (lines 278-312): when
a reported confidence is below 0.7, the first resilience policy whose
condition mentions "confidence" with action `Fallback` yields a logged
suggestion (second component: the policy's `node_ref` payload) and no halt;
with no such policy the halt flag is set.  The `Alert` loop only logs
observations on a random draw and never touches the halt flag, so its draws
are omitted. -/
def agentPostExecutionCheck (node : NodeData) (metadata : MetricsView)
    (halt : Bool) : Bool × Option (Option JVal) :=
  match metadata.simulated_confidence with
  | none => (halt, none)
  | some c =>
      if c < 7/10 then
        match node.resilience_policy.find? confidenceFallbackPolicy with
        | some p => (halt, some (lookupA p.action_params "node_ref"))
        | none => (true, none)
      else (halt, none)

/-- Engine outcome oracle for one step of the agent-controlled run:
the node-data load can fail (lines 159-180), `load_and_validate_node` can
fail (line 194), `execute` can fail, or execution succeeds with a result
dict and metadata. -/
inductive EngineRun where
  | dataLoadFail
  | engineLoadFail
  | execFail (result : Dict) (metadata : MetricsView)
  | execOk (result : Dict) (metadata : MetricsView)
deriving DecidableEq

/-- One planned node of an agent-controlled run together with the oracles
its step consumes: the loaded node data, the engine outcome, the pre-check
draw, the file pre-open check and randomness of the adaptation evaluation,
and the timestamp oracle. -/
structure AgentStep where
  node_id : String
  node : NodeData := {}
  run : EngineRun := .dataLoadFail
  preDraw : ℚ := 1
  fileOk : Bool := true
  feedbackDraw : ℚ := 1
  scheduledDraw : ℚ := 1
  methodDraws : MethodDraws := {}
  nowTs : String := ""
deriving DecidableEq

/-- Mutable state of `execute_graph_with_agent_control` across the plan
loop: the composer result and metadata maps, the halt flag,
`overall_success`, and the `adapted_nodes_this_run` substitution map. -/
structure RunState where
  results : List (String × Dict) := []
  metadata : List (String × MetricsView) := []
  halt : Bool := false
  ok : Bool := true
  adapted : List (String × String) := []
deriving DecidableEq

/-- One iteration of the plan loop of `execute_graph_with_agent_control`
(lines 137-235).  The boolean is false when the loop breaks after this
step. -/
def agentRunStep (st : RunState) (step : AgentStep) : RunState × Bool :=
  if st.halt then ({ st with ok := false }, false)
  else
    let actual_id := (lookupA st.adapted step.node_id).getD step.node_id
    match step.run with
    | .dataLoadFail => ({ st with ok := false }, false)
    | other =>
      let halt1 := agentPreExecutionCheck step.node st.halt step.preDraw
      if halt1 then ({ st with halt := true, ok := false }, false)
      else
        match other with
        | .dataLoadFail => ({ st with ok := false }, false)
        | .engineLoadFail =>
            let r : Dict := [("error", .str "Load/Validation failed")]
            ({ st with results := upsert st.results actual_id r, ok := false },
             false)
        | .execFail r m =>
            ({ st with results := upsert st.results actual_id r,
                       metadata := upsert st.metadata actual_id m,
                       ok := false }, false)
        | .execOk r m =>
            let st1 := { st with results := upsert st.results actual_id r,
                                 metadata := upsert st.metadata actual_id m }
            let post := agentPostExecutionCheck step.node m st1.halt
            if post.1 then ({ st1 with halt := true }, false)
            else
              let adaptedId := evaluateAndAdapt step.fileOk step.node m
                step.feedbackDraw step.scheduledDraw step.methodDraws step.nowTs
              match adaptedId with
              | some nid =>
                  ({ st1 with adapted := upsert st1.adapted actual_id nid }, true)
              | none => (st1, true)

/-- Fold of `agentRunStep` over the plan, stopping at the first break. -/
def agentRunLoop : RunState → List AgentStep → RunState
  | st, [] => st
  | st, s :: rest =>
      let out := agentRunStep st s
      if out.2 then agentRunLoop out.1 rest else out.1

/-- Shallow embedding of `execute_graph_with_agent_control` (lines 116-248):
run the plan loop from a fresh state and derive the final status exactly as
line 237 does (`HALTED` when the halt flag is set, else `SUCCESS` or
`FAILED` by `overall_success`). -/
def runWithAgentControl (steps : List AgentStep) : RunState × String :=
  let fin := agentRunLoop {} steps
  (fin, if fin.halt then "HALTED" else if fin.ok then "SUCCESS" else "FAILED")

/-! Helper lemmas about the association-list operations. -/

theorem lookupA_upsert_self {α : Type} (m : List (String × α)) (k : String)
    (v : α) : lookupA (upsert m k v) k = some v := by
  induction m with
  | nil => simp [upsert, lookupA]
  | cons kv rest ih =>
      by_cases h : kv.1 = k
      · simp [upsert, lookupA, h]
      · simp [upsert, lookupA, h, ih]

theorem lookupA_upsert_ne {α : Type} (m : List (String × α)) (k k2 : String)
    (v : α) (h : k2 ≠ k) : lookupA (upsert m k v) k2 = lookupA m k2 := by
  induction m with
  | nil => simp [upsert, lookupA, Ne.symm h]
  | cons kv rest ih =>
      by_cases hk : kv.1 = k
      · subst hk
        simp [upsert, lookupA, Ne.symm h]
      · by_cases hk2 : kv.1 = k2
        · simp [upsert, lookupA, hk, hk2, Ne.symm h, h]
        · simp [upsert, lookupA, hk, hk2, ih]

theorem keyMem_upsert {α : Type} (m : List (String × α)) (k k2 : String)
    (v : α) :
    keyMem (upsert m k v) k2 = true ↔ k2 = k ∨ keyMem m k2 = true := by
  by_cases h : k2 = k
  · subst h
    simp [keyMem, lookupA_upsert_self]
  · simp [keyMem, lookupA_upsert_ne m k k2 v h, h]

theorem mem_upsert {α : Type} (m : List (String × α)) (k : String) (v : α)
    (kv : String × α) (h : kv ∈ upsert m k v) : kv ∈ m ∨ kv.1 = k := by
  induction m with
  | nil =>
      simp [upsert] at h
      simp [h]
  | cons kv0 rest ih =>
      by_cases hk : kv0.1 = k
      · simp [upsert, hk] at h
        rcases h with h | h
        · right; simp [h]
        · left; simp [h]
      · simp [upsert, hk] at h
        rcases h with h | h
        · left; simp [h]
        · rcases ih h with h2 | h2
          · left; simp [h2]
          · right; exact h2

/-! Helper lemmas about the adaptation manager. -/

/-- Identifier rewrite performed by `perform_adaptation` (lines 183-187):
replace the version suffix when splitting the identifier on `_v` yields
exactly two parts, else append a fresh suffix. -/
def idBump (id ver : String) : String :=
  match splitOnStr id "_v" with
  | [p0, _] => p0 ++ "_v" ++ ver
  | _ => id ++ "_v" ++ ver

theorem performAdaptation_version (n : NodeData) (strat : AdaptStrategy)
    (d : MethodDraws) (ts : String) :
    (performAdaptation n strat d ts).new_node.version =
      some (getNextVersion (n.version.getD "0.0.0")) := by
  simp [performAdaptation]

theorem performAdaptation_derived (n : NodeData) (strat : AdaptStrategy)
    (d : MethodDraws) (ts : String) :
    (performAdaptation n strat d ts).new_node.derived_from = some n.id := by
  simp [performAdaptation]

theorem performAdaptation_newId (n : NodeData) (strat : AdaptStrategy)
    (d : MethodDraws) (ts : String) :
    (performAdaptation n strat d ts).new_node_id =
      idBump n.id (getNextVersion (n.version.getD "0.0.0")) := by
  simp [performAdaptation, idBump]

theorem performAdaptation_strategy (n : NodeData) (strat : AdaptStrategy)
    (d : MethodDraws) (ts : String) :
    (performAdaptation n strat d ts).new_node.adaptation_strategy =
      n.adaptation_strategy := by
  simp [performAdaptation]

theorem performAdaptation_fileName (n : NodeData) (strat : AdaptStrategy)
    (d : MethodDraws) (ts : String) :
    (performAdaptation n strat d ts).file_name =
      (performAdaptation n strat d ts).new_node_id ++ ".json" := by
  simp [performAdaptation]

theorem checkTrigger_lowConfidence (node : NodeData) (s : AdaptStrategy)
    (metrics : MetricsView) (fd sd : ℚ) (c : ℚ)
    (hs : node.adaptation_strategy = some s)
    (ht : s.trigger = some "Performance_Degradation")
    (hc : metrics.simulated_confidence = some c) (hlow : c < 3/4) :
    checkAdaptationTriggers node metrics fd sd =
      (let s2 := { s with trigger_condition := some "Low Confidence",
                          trigger_details :=
                            some [("confidence", .num c), ("threshold", .num (3/4))] }
       ({ node with adaptation_strategy := some s2 }, some s2)) := by
  simp [checkAdaptationTriggers, firedCondition, hs, ht, hc, hlow]

/-! Claim theorems: adaptation triggers and versioned adaptation. -/

/-- C5: for every node declaring `adaptation_strategy.trigger =
Performance_Degradation` and every metadata mapping, `check_adaptation_triggers`
fires exactly when `simulated_confidence` is present and below 0.75, or else
when `execution_duration_ms` is present and above 1000; when the confidence
condition holds the recorded trigger condition is the confidence one
(the duration is not consulted), and a node with no `adaptation_strategy`
yields no strategy. -/
theorem c5_performance_trigger (node : NodeData) (metrics : MetricsView)
    (fd sd : ℚ) :
    (node.adaptation_strategy = none →
      checkAdaptationTriggers node metrics fd sd = (node, none)) ∧
    ∀ s, node.adaptation_strategy = some s →
      s.trigger = some "Performance_Degradation" →
      (((checkAdaptationTriggers node metrics fd sd).2.isSome = true ↔
        (∃ c, metrics.simulated_confidence = some c ∧ c < 3/4) ∨
        (∃ t, metrics.execution_duration_ms = some t ∧ 1000 < t)) ∧
       ∀ c, metrics.simulated_confidence = some c → c < 3/4 →
         ∃ s2, (checkAdaptationTriggers node metrics fd sd).2 = some s2 ∧
           s2.trigger_condition = some "Low Confidence" ∧
           s2.trigger_details =
             some [("confidence", .num c), ("threshold", .num (3/4))]) := by
  constructor
  · intro h
    simp [checkAdaptationTriggers, h]
  · intro s hs ht
    constructor
    · rcases hc : metrics.simulated_confidence with _ | c
      · rcases hd : metrics.execution_duration_ms with _ | t
        · simp [checkAdaptationTriggers, firedCondition, hs, ht, hc, hd]
        · by_cases h1 : 1000 < t
          · simp [checkAdaptationTriggers, firedCondition, hs, ht, hc, hd, h1]
          · simp [checkAdaptationTriggers, firedCondition, hs, ht, hc, hd, h1]
      · by_cases hlow : c < 3/4
        · simp [checkAdaptationTriggers, firedCondition, hs, ht, hc, hlow]
        · rcases hd : metrics.execution_duration_ms with _ | t
          · simp [checkAdaptationTriggers, firedCondition, hs, ht, hc, hlow, hd]
          · by_cases h1 : 1000 < t
            · simp [checkAdaptationTriggers, firedCondition, hs, ht, hc, hlow, hd, h1]
            · simp [checkAdaptationTriggers, firedCondition, hs, ht, hc, hlow, hd, h1]
    · intro c hc hlow
      rw [checkTrigger_lowConfidence node s metrics fd sd c hs ht hc hlow]
      exact ⟨_, rfl, rfl, rfl⟩

/-- Witness for C5 at a concrete node and metadata. -/
theorem c5_performance_trigger_witness :
    checkAdaptationTriggers { id := "n" } { simulated_confidence := some (6/10) } 1 1 =
      ({ id := "n" }, none) ∧
    (checkAdaptationTriggers
      { id := "n",
        adaptation_strategy := some { trigger := some "Performance_Degradation" } }
      { simulated_confidence := some (6/10) } 1 1).2.isSome = true := by
  refine ⟨(c5_performance_trigger { id := "n" }
      { simulated_confidence := some (6/10) } 1 1).1 rfl, ?_⟩
  exact ((c5_performance_trigger
      { id := "n",
        adaptation_strategy := some { trigger := some "Performance_Degradation" } }
      { simulated_confidence := some (6/10) } 1 1).2 _ rfl rfl).1.mpr
    (Or.inl ⟨6/10, rfl, by norm_num⟩)

/-- C4: every node with the `Performance_Degradation` trigger, version
`1.0.0` and metadata confidence 0.6 adapts to a new node at version `1.1.0`
whose identifier has its `_v` suffix replaced (or appended) and whose
`derived_from` is the original identifier; repeating the check on the new
node with the same metadata yields version `1.2.0`.  The final conjuncts
state the version-bump rule itself: a parsed semantic version gets its minor
component bumped with patch reset, an unparsable all-digit triple gets the
manual increment, and anything else gets the literal `-adapted` suffix. -/
theorem c4_versioned_adaptation (node : NodeData) (s : AdaptStrategy)
    (metrics : MetricsView) (fd sd : ℚ) (d1 d2 : MethodDraws) (ts1 ts2 : String)
    (hs : node.adaptation_strategy = some s)
    (ht : s.trigger = some "Performance_Degradation")
    (hv : node.version = some "1.0.0")
    (hm : metrics.simulated_confidence = some (6/10)) :
    (∃ s1, (checkAdaptationTriggers node metrics fd sd).2 = some s1 ∧
      (let out1 := performAdaptation (checkAdaptationTriggers node metrics fd sd).1 s1 d1 ts1
       out1.new_node.version = some "1.1.0" ∧
       out1.new_node.derived_from = some node.id ∧
       out1.new_node_id = idBump node.id "1.1.0" ∧
       ∃ s2, (checkAdaptationTriggers out1.new_node metrics fd sd).2 = some s2 ∧
         (performAdaptation (checkAdaptationTriggers out1.new_node metrics fd sd).1
            s2 d2 ts2).new_node.version = some "1.2.0")) ∧
    (∀ ver M N P, parseSemver ver = some (M, N, P) →
      getNextVersion ver = s!"{M}.{N + 1}.0") ∧
    (∀ ver p0 p1 p2, parseSemver ver = none → splitOnStr ver "." = [p0, p1, p2] →
      ([p0, p1, p2].all digitPart) = true →
      getNextVersion ver = p0 ++ "." ++ toString (digitsVal p1.data + 1) ++ ".0") ∧
    (∀ ver p0 p1 p2, parseSemver ver = none → splitOnStr ver "." = [p0, p1, p2] →
      ([p0, p1, p2].all digitPart) = false →
      getNextVersion ver = ver ++ "-adapted") ∧
    (∀ ver, parseSemver ver = none → (∀ p0 p1 p2, splitOnStr ver "." ≠ [p0, p1, p2]) →
      getNextVersion ver = ver ++ "-adapted") := by
  have hlow : (6 : ℚ)/10 < 3/4 := by norm_num
  refine ⟨?_, ?_, ?_, ?_, ?_⟩
  · rw [checkTrigger_lowConfidence node s metrics fd sd (6/10) hs ht hm hlow]
    refine ⟨_, rfl, ?_⟩
    set s2 : AdaptStrategy :=
      { s with trigger_condition := some "Low Confidence",
               trigger_details :=
                 some [("confidence", .num (6/10)), ("threshold", .num (3/4))] }
      with hs2
    set node2 : NodeData := { node with adaptation_strategy := some s2 } with hn2
    have hver2 : node2.version = some "1.0.0" := hv
    have hbump1 : getNextVersion "1.0.0" = "1.1.0" := by decide
    have hout1ver :
        (performAdaptation node2 s2 d1 ts1).new_node.version = some "1.1.0" := by
      rw [performAdaptation_version, hver2]
      simp [hbump1]
    refine ⟨hout1ver, ?_, ?_, ?_⟩
    · rw [performAdaptation_derived]
    · rw [performAdaptation_newId, hver2]
      simp [hbump1]
    · have hstrat2 :
          (performAdaptation node2 s2 d1 ts1).new_node.adaptation_strategy = some s2 :=
        performAdaptation_strategy node2 s2 d1 ts1
      have htrig2 : s2.trigger = some "Performance_Degradation" := ht
      rw [checkTrigger_lowConfidence (performAdaptation node2 s2 d1 ts1).new_node
        s2 metrics fd sd (6/10) hstrat2 htrig2 hm hlow]
      refine ⟨_, rfl, ?_⟩
      have hbump2 : getNextVersion "1.1.0" = "1.2.0" := by decide
      rw [performAdaptation_version]
      simp [hout1ver, hbump2]
  · intro ver M N P h
    simp [getNextVersion, h]
  · intro ver p0 p1 p2 hparse hsplit hall
    simp [getNextVersion, hparse, hsplit, hall]
  · intro ver p0 p1 p2 hparse hsplit hall
    simp [getNextVersion, hparse, hsplit, hall]
  · intro ver hparse hshape
    rcases hsp : splitOnStr ver "." with _ | ⟨a, _ | ⟨b, _ | ⟨c2, _ | ⟨e, rest⟩⟩⟩⟩
    · simp [getNextVersion, hparse, hsp]
    · simp [getNextVersion, hparse, hsp]
    · simp [getNextVersion, hparse, hsp]
    · exact absurd hsp (hshape a b c2)
    · simp [getNextVersion, hparse, hsp]

/-- Witness for C4 at the concrete test node of the repository
(`node_test_adapt_v1.0.0`). -/
theorem c4_versioned_adaptation_witness :
    ∃ s1,
      (checkAdaptationTriggers
        { id := "node_test_adapt_v1.0.0", version := some "1.0.0",
          adaptation_strategy :=
            some { trigger := some "Performance_Degradation",
                   method := some "Adjust_Parameters" } }
        { simulated_confidence := some (6/10) } 1 1).2 = some s1 ∧
      (let out1 := performAdaptation
        (checkAdaptationTriggers
          { id := "node_test_adapt_v1.0.0", version := some "1.0.0",
            adaptation_strategy :=
              some { trigger := some "Performance_Degradation",
                     method := some "Adjust_Parameters" } }
          { simulated_confidence := some (6/10) } 1 1).1 s1 {} "t1"
       out1.new_node.version = some "1.1.0" ∧
       out1.new_node.derived_from = some "node_test_adapt_v1.0.0" ∧
       out1.new_node_id = idBump "node_test_adapt_v1.0.0" "1.1.0" ∧
       ∃ s2, (checkAdaptationTriggers out1.new_node
          { simulated_confidence := some (6/10) } 1 1).2 = some s2 ∧
         (performAdaptation (checkAdaptationTriggers out1.new_node
            { simulated_confidence := some (6/10) } 1 1).1
            s2 {} "t2").new_node.version = some "1.2.0") := by
  exact (c4_versioned_adaptation
    { id := "node_test_adapt_v1.0.0", version := some "1.0.0",
      adaptation_strategy :=
        some { trigger := some "Performance_Degradation",
               method := some "Adjust_Parameters" } }
    { trigger := some "Performance_Degradation",
      method := some "Adjust_Parameters" }
    { simulated_confidence := some (6/10) } 1 1 {} {} "t1" "t2"
    rfl rfl rfl rfl).1

/-! Claim theorems: tracer. -/

theorem logEvent_events (t : TracerState) (now ty : String) (data : Dict)
    (nid : Option String) :
    (t.logEvent now ty data nid).events =
      t.events ++ [⟨now, t.session_id, ty, nid, data⟩] := by
  simp only [TracerState.logEvent]
  split_ifs <;> rfl

theorem runLogCalls_none_aux (calls : List LogCall) (k : ℕ) :
    calls.foldl
      (fun acc c =>
        let out := logTraceEvent acc.1 c.now c.event_type c.data c.node_id
        (out.1, acc.2 + out.2))
      ((none : Option TracerState), k) = (none, k + calls.length) := by
  induction calls generalizing k with
  | nil => simp
  | cons c rest ih =>
      rw [List.foldl_cons]
      change List.foldl _ ((none : Option TracerState), k + 1) rest = _
      rw [ih]
      simp [Nat.add_assoc, Nat.add_comm 1 rest.length]

/-- C9 counterexample: the claim says a warning is emitted only on the first
uninitialized log call, but `get_tracer` warns on every call made before
initialization: two uninitialized calls emit two warnings, not one. -/
theorem c9_counterexample :
    (runLogCalls none [{}, {}]).2 = 2 ∧ (runLogCalls none [{}, {}]).2 ≠ 1 := by
  decide

/-- C9 amended: every log call made while no tracer session is initialized
is a no-op (the global state stays `none`, nothing is appended, no exception)
and emits one warning per call (not only the first); once a session is
initialized, a log call appends exactly one event to the stream. -/
theorem c9_uninitialized_logging (calls : List LogCall) (t : TracerState)
    (c : LogCall) :
    runLogCalls none calls = (none, calls.length) ∧
    ∃ t2, (logTraceEvent (some t) c.now c.event_type c.data c.node_id).1 = some t2 ∧
      t2.events = t.events ++ [⟨c.now, t.session_id, c.event_type, c.node_id, c.data⟩] := by
  refine ⟨?_, ?_⟩
  · unfold runLogCalls
    rw [runLogCalls_none_aux]
    simp
  · exact ⟨_, rfl, logEvent_events t c.now c.event_type c.data c.node_id⟩

/-- Witness for C9 at a concrete call sequence and session. -/
theorem c9_uninitialized_logging_witness :
    runLogCalls none [{}, {}, {}] = (none, 3) ∧
    ∃ t2, (logTraceEvent (some { session_id := "s" }) "now" "NODE_END"
        [] (some "n1")).1 = some t2 ∧
      t2.events = [⟨"now", "s", "NODE_END", some "n1", []⟩] := by
  exact c9_uninitialized_logging [{}, {}, {}] { session_id := "s" }
    { now := "now", event_type := "NODE_END", data := [], node_id := some "n1" }

/-! Helper lemmas about the simulation generator and the engine. -/

theorem simFold_keyMem_mono (draws : SimDraws) (defs : List OutputDef)
    (acc : Dict × Bool) (k : String) (h : keyMem acc.1 k = true) :
    keyMem (simFold draws defs acc).1 k = true := by
  induction defs generalizing acc with
  | nil => exact h
  | cons d rest ih =>
      rcases hn : d.output_name with _ | n
      · simp only [simFold, hn]
        exact ih acc h
      · simp only [simFold, hn]
        by_cases he : n = ""
        · simp only [he, if_true]
          exact ih acc h
        · simp only [he, if_false]
          exact ih _ ((keyMem_upsert acc.1 n k (draws.mockVal n)).mpr (Or.inr h))

theorem simFold_contains (draws : SimDraws) (defs : List OutputDef)
    (acc : Dict × Bool) (d : OutputDef) (n : String)
    (hd : d ∈ defs) (hn : d.output_name = some n) (hne : n ≠ "") :
    keyMem (simFold draws defs acc).1 n = true := by
  induction defs generalizing acc with
  | nil => cases hd
  | cons d0 rest ih =>
      rcases List.mem_cons.mp hd with h0 | h0
      · subst h0
        simp only [simFold, hn, hne, if_false]
        exact simFold_keyMem_mono draws rest _ n
          ((keyMem_upsert acc.1 n n (draws.mockVal n)).mpr (Or.inl rfl))
      · rcases hn0 : d0.output_name with _ | n0
        · simp only [simFold, hn0]
          exact ih _ h0
        · simp only [simFold, hn0]
          by_cases he : n0 = ""
          · simp only [he, if_true]
            exact ih _ h0
          · simp only [he, if_false]
            exact ih _ h0

theorem simFold_mem (draws : SimDraws) (defs : List OutputDef)
    (acc : Dict × Bool) (kv : String × JVal)
    (h : kv ∈ (simFold draws defs acc).1) :
    kv ∈ acc.1 ∨ ∃ d ∈ defs, d.output_name = some kv.1 ∧ kv.1 ≠ "" := by
  induction defs generalizing acc with
  | nil => exact Or.inl h
  | cons d0 rest ih =>
      rcases hn0 : d0.output_name with _ | n0
      · simp only [simFold, hn0] at h
        rcases ih _ h with h2 | ⟨d, hd, hdn⟩
        · exact Or.inl h2
        · exact Or.inr ⟨d, List.mem_cons_of_mem d0 hd, hdn⟩
      · simp only [simFold, hn0] at h
        by_cases he : n0 = ""
        · rw [if_pos he] at h
          rcases ih _ h with h2 | ⟨d, hd, hdn⟩
          · exact Or.inl h2
          · exact Or.inr ⟨d, List.mem_cons_of_mem d0 hd, hdn⟩
        · rw [if_neg he] at h
          rcases ih _ h with h2 | ⟨d, hd, hdn⟩
          · rcases mem_upsert acc.1 n0 (draws.mockVal n0) kv h2 with h3 | h3
            · exact Or.inl h3
            · exact Or.inr ⟨d0, List.mem_cons_self d0 rest, by rw [hn0, h3], by rw [h3]; exact he⟩
          · exact Or.inr ⟨d, List.mem_cons_of_mem d0 hd, hdn⟩

theorem simFold_flag_false (draws : SimDraws) (defs : List OutputDef)
    (acc : Dict × Bool)
    (hdefs : ∀ d ∈ defs, ∀ n, d.output_name = some n → n ≠ "" →
      containsSub (lowerStr n) "confidence" = false)
    (hacc : acc.2 = false) :
    (simFold draws defs acc).2 = false := by
  induction defs generalizing acc with
  | nil => exact hacc
  | cons d0 rest ih =>
      rcases hn0 : d0.output_name with _ | n0
      · simp only [simFold, hn0]
        exact ih _ (fun d hd => hdefs d (List.mem_cons_of_mem d0 hd)) hacc
      · simp only [simFold, hn0]
        by_cases he : n0 = ""
        · rw [if_pos he]
          exact ih _ (fun d hd => hdefs d (List.mem_cons_of_mem d0 hd)) hacc
        · rw [if_neg he]
          refine ih _ (fun d hd => hdefs d (List.mem_cons_of_mem d0 hd)) ?_
          simp [hacc, hdefs d0 (List.mem_cons_self d0 rest) n0 hn0 he]

theorem round4_bounds (q : ℚ) (h1 : 1/2 ≤ q) (h2 : q ≤ 99/100) :
    1/2 ≤ round4 q ∧ round4 q ≤ 99/100 := by
  have e : round (q * 10000) = ⌊q * 10000 + 1/2⌋ := round_eq _
  have hl : (5000 : ℤ) ≤ ⌊q * 10000 + 1/2⌋ :=
    Int.le_floor.mpr (by push_cast; linarith)
  have hu : ⌊q * 10000 + 1/2⌋ < (9901 : ℤ) :=
    Int.floor_lt.mpr (by push_cast; linarith)
  unfold round4
  rw [e]
  constructor
  · rw [le_div_iff₀ (by norm_num : (0:ℚ) < 10000)]
    calc (1:ℚ)/2 * 10000 = ((5000 : ℤ) : ℚ) := by norm_num
    _ ≤ (⌊q * 10000 + 1/2⌋ : ℚ) := by exact_mod_cast hl
  · rw [div_le_iff₀ (by norm_num : (0:ℚ) < 10000)]
    calc ((⌊q * 10000 + 1/2⌋ : ℤ) : ℚ) ≤ ((9900 : ℤ) : ℚ) := by
          exact_mod_cast Int.lt_add_one_iff.mp hu
    _ ≤ 99/100 * 10000 := by norm_num

theorem finishResult_false (result : Option Dict) (meta : Metadata)
    (nid : String) (dur : ℚ)
    (h : (finishResult result meta nid dur).success = false) :
    keyMem (finishResult result meta nid dur).execution_result "error" = true := by
  rcases result with _ | r
  · simp [finishResult, keyMem, lookupA]
  · simp [finishResult] at h

/-! Claim theorems: execution engine. -/

/-- C10: whenever `execute` returns false for a node whose data was
successfully loaded, the engine's `execution_result` contains the key
`error` — covering the missing `execution_logic`, unsupported execution
type, null dispatch result and unexpected exception paths. -/
theorem c10_failure_has_error_key (node : NodeData) (inv : ModelInvocation)
    (draws : SimDraws) (exc : Option String) (dur : ℚ)
    (h : (execute node inv draws exc dur).success = false) :
    keyMem (execute node inv draws exc dur).execution_result "error" = true := by
  rcases hlogic : node.execution_logic with _ | logic
  · simp [execute, hlogic, keyMem, lookupA]
  · rcases hexc : exc with _ | msg
    · by_cases hmr : logic.type = some "Model_Ref"
      · rw [execute, hlogic] at h ⊢
        simp only [hexc, hmr, if_true] at h ⊢
        rcases hres : (executeRealModel node.outputs inv
            { execution_mode := some "real_model_attempt" }).1 with _ | output
        · rw [hres] at h
          by_cases hinp : node.inputs.any (fun i => i.input_name.isNone)
          · simp [hinp, keyMem, lookupA]
          · simp only [hinp, Bool.false_eq_true, if_false] at h ⊢
            exact finishResult_false _ _ _ _ h
        · rw [hres] at h
          exact finishResult_false _ _ _ _ h
      · by_cases hsub : logic.type = some "Subgraph_Ref" ∨ logic.type = some "External_Call"
        · rw [execute, hlogic] at h ⊢
          simp only [hexc, hmr, if_false, hsub, if_true] at h ⊢
          exact finishResult_false _ _ _ _ h
        · rw [execute, hlogic] at h ⊢
          simp only [hexc, hmr, hsub, if_false] at h ⊢
          simp [keyMem, lookupA]
    · simp [execute, hlogic, hexc, keyMem, lookupA]

/-- Witness for C10 at a node with no `execution_logic`. -/
theorem c10_failure_has_error_key_witness :
    (execute { id := "n" } .fileMissing ⟨fun _ => .num 0, 1⟩ none 1).success = false ∧
    keyMem (execute { id := "n" } .fileMissing ⟨fun _ => .num 0, 1⟩ none 1).execution_result
      "error" = true := by
  refine ⟨by decide, ?_⟩
  exact c10_failure_has_error_key { id := "n" } .fileMissing ⟨fun _ => .num 0, 1⟩
    none 1 (by decide)

/-- Fallback condition of the `Model_Ref` dispatch: the implementation is
missing, errors in any way, or returns a mapping missing some declared
output name. -/
def realModelFails (outputs : List OutputDef) (inv : ModelInvocation) : Bool :=
  match inv with
  | .returns output => !((expectedOutputNames outputs).all fun n => keyMem output n)
  | _ => true

theorem executeRealModel_none (outputs : List OutputDef) (inv : ModelInvocation)
    (meta : Metadata) (h : realModelFails outputs inv = true) :
    executeRealModel outputs inv meta = (none, meta) := by
  cases inv with
  | returns output =>
      have h2 : ((expectedOutputNames outputs).all fun n => keyMem output n) = false := by
        simpa [realModelFails] using h
      simp [executeRealModel, h2]
  | fileMissing => simp [executeRealModel]
  | loadError => simp [executeRealModel]
  | noRunModel => simp [executeRealModel]
  | runError => simp [executeRealModel]
  | notDict => simp [executeRealModel]

/-- Metadata recorded on the simulation-fallback path (src/runtime/engine.py
lines 238-242), before the duration stamp. -/
def fallbackMeta (result : Dict) : Metadata :=
  match lookupA result "confidence" with
  | some v => { execution_mode := some "simulation_fallback",
                confidence_source := some "simulation",
                simulated_confidence := some v }
  | none => { execution_mode := some "simulation_fallback",
              confidence_source := some "none" }

theorem fallbackMeta_mode (result : Dict) :
    (fallbackMeta result).execution_mode = some "simulation_fallback" := by
  unfold fallbackMeta
  rcases lookupA result "confidence" with _ | v <;> rfl

/-- Outcome of `execute` on the simulation-fallback path, fully
characterized. -/
theorem execute_fallback (node : NodeData) (logic : ExecLogic)
    (inv : ModelInvocation) (draws : SimDraws) (dur : ℚ)
    (hlogic : node.execution_logic = some logic)
    (htype : logic.type = some "Model_Ref")
    (hfb : realModelFails node.outputs inv = true)
    (hinp : (node.inputs.any fun i => i.input_name.isNone) = false) :
    execute node inv draws none dur =
      ⟨true, simulateExecution draws node.outputs,
       { fallbackMeta (simulateExecution draws node.outputs) with
         execution_duration_ms := some dur }⟩ := by
  have hnone := executeRealModel_none node.outputs inv
    { execution_mode := some "real_model_attempt" } hfb
  rw [execute, hlogic]
  simp only [htype, if_true, hnone, hinp, Bool.false_eq_true, if_false,
    finishResult, fallbackMeta]

theorem simulateExecution_contains (draws : SimDraws) (defs : List OutputDef)
    (d : OutputDef) (n : String) (hd : d ∈ defs) (hn : d.output_name = some n)
    (hne : n ≠ "") : keyMem (simulateExecution draws defs) n = true := by
  have h := simFold_contains draws defs ([], false) d n hd hn hne
  unfold simulateExecution
  dsimp only
  split_ifs with h1 h2
  · exact h
  · exact h
  · exact (keyMem_upsert _ _ _ _).mpr (Or.inr h)

theorem simulateExecution_adds_confidence (draws : SimDraws)
    (defs : List OutputDef)
    (hno : ∀ d ∈ defs, ∀ n, d.output_name = some n → n ≠ "" →
      containsSub (lowerStr n) "confidence" = false) :
    lookupA (simulateExecution draws defs) "confidence" =
      some (.num (round4 draws.confDraw)) := by
  have hflag : (simFold draws defs ([], false)).2 = false :=
    simFold_flag_false draws defs ([], false) hno rfl
  have hany : ((simFold draws defs ([], false)).1.any
      fun kv => containsSub (lowerStr kv.1) "confidence") = false := by
    rw [List.any_eq_false]
    intro kv hkv
    rcases simFold_mem draws defs ([], false) kv hkv with h2 | ⟨d, hd, hdn, hdne⟩
    · cases h2
    · simp [hno d hd kv.1 hdn hdne]
  unfold simulateExecution
  simp only [hflag, Bool.false_eq_true, if_false, hany]
  exact lookupA_upsert_self _ _ _

/-- C1: for every `Model_Ref` node whose referenced implementation cannot be
found, errors, or returns an invalid or incomplete mapping, `execute` still
returns true, records `execution_mode = simulation_fallback`, produces a
result holding a value for every declared output name, and synthesizes a
confidence value in [0.5, 0.99] whenever no generated output name contains
"confidence".  (The input definitions must carry names — schema-valid nodes
do — since the fallback input comprehension indexes `inp["input_name"]`.) -/
theorem c1_model_ref_fallback (node : NodeData) (logic : ExecLogic)
    (inv : ModelInvocation) (draws : SimDraws) (dur : ℚ)
    (hlogic : node.execution_logic = some logic)
    (htype : logic.type = some "Model_Ref")
    (hfb : realModelFails node.outputs inv = true)
    (hins : ∀ i ∈ node.inputs, i.input_name.isSome = true)
    (hc1 : 1/2 ≤ draws.confDraw) (hc2 : draws.confDraw ≤ 99/100) :
    (execute node inv draws none dur).success = true ∧
    (execute node inv draws none dur).execution_metadata.execution_mode =
      some "simulation_fallback" ∧
    (∀ d ∈ node.outputs, ∀ n, d.output_name = some n → n ≠ "" →
      keyMem (execute node inv draws none dur).execution_result n = true) ∧
    ((∀ d ∈ node.outputs, ∀ n, d.output_name = some n → n ≠ "" →
        containsSub (lowerStr n) "confidence" = false) →
      ∃ q, lookupA (execute node inv draws none dur).execution_result "confidence" =
          some (.num q) ∧ 1/2 ≤ q ∧ q ≤ 99/100) := by
  have hinp : (node.inputs.any fun i => i.input_name.isNone) = false := by
    rw [List.any_eq_false]
    intro i hi
    rcases hn : i.input_name with _ | v
    · exact absurd (hins i hi) (by simp [hn])
    · simp [hn]
  have hchar := execute_fallback node logic inv draws dur hlogic htype hfb hinp
  rw [hchar]
  refine ⟨rfl, ?_, ?_, ?_⟩
  · show ({ fallbackMeta (simulateExecution draws node.outputs) with
        execution_duration_ms := some dur } : Metadata).execution_mode =
      some "simulation_fallback"
    rw [show ({ fallbackMeta (simulateExecution draws node.outputs) with
        execution_duration_ms := some dur } : Metadata).execution_mode =
      (fallbackMeta (simulateExecution draws node.outputs)).execution_mode from rfl]
    exact fallbackMeta_mode _
  · intro d hd n hn hne
    exact simulateExecution_contains draws node.outputs d n hd hn hne
  · intro hnoconf
    refine ⟨round4 draws.confDraw, ?_, (round4_bounds draws.confDraw hc1 hc2).1,
      (round4_bounds draws.confDraw hc1 hc2).2⟩
    exact simulateExecution_adds_confidence draws node.outputs hnoconf

/-- Witness for C1: a `Model_Ref` node with a missing model file and one
declared output falls back to simulation with a synthesized confidence. -/
theorem c1_model_ref_fallback_witness :
    (execute
      { id := "forecast_sales_v2.1.0",
        execution_logic := some { type := some "Model_Ref",
                                  reference := some "model_x_v1.0.0" },
        outputs := [{ output_name := some "sales_forecast",
                      data_type_ref := "timeseries" }] }
      .fileMissing ⟨fun _ => .num 1, 7/10⟩ none 5).success = true ∧
    (execute
      { id := "forecast_sales_v2.1.0",
        execution_logic := some { type := some "Model_Ref",
                                  reference := some "model_x_v1.0.0" },
        outputs := [{ output_name := some "sales_forecast",
                      data_type_ref := "timeseries" }] }
      .fileMissing ⟨fun _ => .num 1, 7/10⟩ none 5).execution_metadata.execution_mode =
      some "simulation_fallback" ∧
    ∃ q, lookupA (execute
      { id := "forecast_sales_v2.1.0",
        execution_logic := some { type := some "Model_Ref",
                                  reference := some "model_x_v1.0.0" },
        outputs := [{ output_name := some "sales_forecast",
                      data_type_ref := "timeseries" }] }
      .fileMissing ⟨fun _ => .num 1, 7/10⟩ none 5).execution_result "confidence" =
        some (.num q) ∧ 1/2 ≤ q ∧ q ≤ 99/100 := by
  have h := c1_model_ref_fallback
    { id := "forecast_sales_v2.1.0",
      execution_logic := some { type := some "Model_Ref",
                                reference := some "model_x_v1.0.0" },
      outputs := [{ output_name := some "sales_forecast",
                    data_type_ref := "timeseries" }] }
    { type := some "Model_Ref", reference := some "model_x_v1.0.0" }
    .fileMissing ⟨fun _ => .num 1, 7/10⟩ 5 rfl rfl (by decide)
    (by intro i hi; cases hi) (by norm_num) (by norm_num)
  refine ⟨h.1, h.2.1, h.2.2.2 ?_⟩
  intro d hd n hn hne
  simp only [List.mem_singleton] at hd
  subst hd
  simp only [Option.some.injEq] at hn
  subst hn
  decide

/-- Exact-key confidence probe of the real-model path (src/runtime/engine.py
lines 154-164): the keys `confidence`, `forecast_confidence`,
`prediction_confidence`, in that order of precedence. -/
def modelConfidenceLookup (output : Dict) : Option JVal :=
  match lookupA output "confidence" with
  | some v => some v
  | none =>
    match lookupA output "forecast_confidence" with
    | some v => some v
    | none => lookupA output "prediction_confidence"

theorem executeRealModel_returns (outputs : List OutputDef) (output : Dict)
    (hall : ((expectedOutputNames outputs).all fun n => keyMem output n) = true) :
    executeRealModel outputs (.returns output)
      { execution_mode := some "real_model_attempt" } =
      (some output,
       { execution_mode := some "real_model_success",
         confidence_source :=
           some (if (modelConfidenceLookup output).isSome then "model" else "none"),
         simulated_confidence := modelConfidenceLookup output }) := by
  unfold executeRealModel modelConfidenceLookup
  simp only [hall, if_true]
  rcases h1 : lookupA output "confidence" with _ | v
  · rcases h2 : lookupA output "forecast_confidence" with _ | v
    · rcases h3 : lookupA output "prediction_confidence" with _ | v
      · rfl
      · rfl
    · rfl
  · rfl

theorem fallbackMeta_conf (result : Dict) :
    (fallbackMeta result).simulated_confidence = lookupA result "confidence" := by
  unfold fallbackMeta
  rcases h : lookupA result "confidence" with _ | v <;> rfl

theorem fallbackMeta_source (result : Dict) :
    (fallbackMeta result).confidence_source =
      some (if (lookupA result "confidence").isSome then "simulation" else "none") := by
  unfold fallbackMeta
  rcases h : lookupA result "confidence" with _ | v <;> rfl

/-- C6 counterexample: on the simulation-fallback path a result whose only
key is `forecast_confidence` (which contains the substring "confidence")
leaves `simulated_confidence` unset, because the engine's fallback branch
probes only the literal key `confidence` (src/runtime/engine.py line 238) —
refuting the claim that any confidence-like output key is copied into the
metadata.  The witness run is successful and its output mapping does contain
a confidence-like key. -/
theorem c6_counterexample :
    (execute
      { id := "forecaster_v1.0.0",
        execution_logic := some { type := some "Model_Ref",
                                  reference := some "model_x" },
        outputs := [{ output_name := some "forecast_confidence",
                      data_type_ref := "scalar_float" }] }
      .fileMissing ⟨fun _ => .num (8/10), 7/10⟩ none 5).success = true ∧
    keyMem (execute
      { id := "forecaster_v1.0.0",
        execution_logic := some { type := some "Model_Ref",
                                  reference := some "model_x" },
        outputs := [{ output_name := some "forecast_confidence",
                      data_type_ref := "scalar_float" }] }
      .fileMissing ⟨fun _ => .num (8/10), 7/10⟩ none 5).execution_result
      "forecast_confidence" = true ∧
    containsSub (lowerStr "forecast_confidence") "confidence" = true ∧
    (execute
      { id := "forecaster_v1.0.0",
        execution_logic := some { type := some "Model_Ref",
                                  reference := some "model_x" },
        outputs := [{ output_name := some "forecast_confidence",
                      data_type_ref := "scalar_float" }] }
      .fileMissing ⟨fun _ => .num (8/10), 7/10⟩ none 5).execution_metadata.simulated_confidence
      = none := by
  decide

/-- C6 amended: confidence extraction after a successful dispatch probes
exact keys only.  On the real-model path the keys `confidence`,
`forecast_confidence`, `prediction_confidence` are probed in that order and
copied with `confidence_source = "model"` (else `"none"`); on the
simulation-fallback path only the literal key `confidence` is probed, with
source `"simulation"` (else `"none"`); the plain simulation path
(`Subgraph_Ref` / `External_Call`) performs no extraction at all. -/
theorem c6_amended_confidence_extraction (node : NodeData) (logic : ExecLogic)
    (inv : ModelInvocation) (draws : SimDraws) (dur : ℚ) (output : Dict)
    (hlogic : node.execution_logic = some logic) :
    (logic.type = some "Model_Ref" → inv = .returns output →
      ((expectedOutputNames node.outputs).all fun n => keyMem output n) = true →
      (execute node inv draws none dur).execution_metadata.simulated_confidence =
        modelConfidenceLookup output ∧
      (execute node inv draws none dur).execution_metadata.confidence_source =
        some (if (modelConfidenceLookup output).isSome then "model" else "none")) ∧
    (logic.type = some "Model_Ref" → realModelFails node.outputs inv = true →
      (node.inputs.any fun i => i.input_name.isNone) = false →
      (execute node inv draws none dur).execution_metadata.simulated_confidence =
        lookupA (simulateExecution draws node.outputs) "confidence" ∧
      (execute node inv draws none dur).execution_metadata.confidence_source =
        some (if (lookupA (simulateExecution draws node.outputs) "confidence").isSome
              then "simulation" else "none")) ∧
    ((logic.type = some "Subgraph_Ref" ∨ logic.type = some "External_Call") →
      (execute node inv draws none dur).execution_metadata.simulated_confidence = none ∧
      (execute node inv draws none dur).execution_metadata.confidence_source = none) := by
  refine ⟨?_, ?_, ?_⟩
  · intro htype hinv hall
    subst hinv
    rw [execute, hlogic]
    simp only [htype, if_true, executeRealModel_returns node.outputs output hall,
      finishResult]
    exact ⟨trivial, trivial⟩
  · intro htype hfb hinp
    rw [execute_fallback node logic inv draws dur hlogic htype hfb hinp]
    exact ⟨fallbackMeta_conf _, fallbackMeta_source _⟩
  · intro hsub
    have hmr : ¬logic.type = some "Model_Ref" := by
      rcases hsub with h | h <;> simp [h]
    rw [execute, hlogic]
    simp only [hmr, if_false, hsub, if_true, finishResult]
    exact ⟨trivial, trivial⟩

/-- Witness for C6's amended claim: a real model returning only
`forecast_confidence` has that value copied with source `model`, a fallback
with a non-confidence output gets the synthesized `confidence` copied with
source `simulation`, and a `Subgraph_Ref` node gets no extraction. -/
theorem c6_amended_confidence_extraction_witness :
    ((execute
      { id := "m_v1", execution_logic := some { type := some "Model_Ref" },
        outputs := [{ output_name := some "forecast_confidence" }] }
      (.returns [("forecast_confidence", .num (8/10))])
      ⟨fun _ => .num 1, 7/10⟩ none 5).execution_metadata.simulated_confidence =
        modelConfidenceLookup [("forecast_confidence", .num (8/10))] ∧
     (execute
      { id := "m_v1", execution_logic := some { type := some "Model_Ref" },
        outputs := [{ output_name := some "forecast_confidence" }] }
      (.returns [("forecast_confidence", .num (8/10))])
      ⟨fun _ => .num 1, 7/10⟩ none 5).execution_metadata.confidence_source =
        some (if (modelConfidenceLookup
          [("forecast_confidence", .num (8/10))]).isSome then "model" else "none")) ∧
    ((execute
      { id := "s_v1", execution_logic := some { type := some "Subgraph_Ref" } }
      .fileMissing ⟨fun _ => .num 1, 7/10⟩ none 5).execution_metadata.simulated_confidence
        = none ∧
     (execute
      { id := "s_v1", execution_logic := some { type := some "Subgraph_Ref" } }
      .fileMissing ⟨fun _ => .num 1, 7/10⟩ none 5).execution_metadata.confidence_source
        = none) := by
  constructor
  · exact (c6_amended_confidence_extraction
      { id := "m_v1", execution_logic := some { type := some "Model_Ref" },
        outputs := [{ output_name := some "forecast_confidence" }] }
      { type := some "Model_Ref" }
      (.returns [("forecast_confidence", .num (8/10))])
      ⟨fun _ => .num 1, 7/10⟩ 5 [("forecast_confidence", .num (8/10))] rfl).1
      rfl rfl (by decide)
  · exact (c6_amended_confidence_extraction
      { id := "s_v1", execution_logic := some { type := some "Subgraph_Ref" } }
      { type := some "Subgraph_Ref" } .fileMissing
      ⟨fun _ => .num 1, 7/10⟩ 5 [] rfl).2.2 (Or.inl rfl)

/-- C7 counterexample, two parts.  First, `check_adaptation_triggers`
mutates the original node record when a trigger fires: it writes
`_trigger_condition` and `_trigger_details` into the node's own
`adaptation_strategy` mapping, so the post-state differs from the input.
Second, the file `perform_adaptation` writes can coincide with the original
node's conventional file `<id>.json`: for a node whose identifier suffix
(`_v1.1.0`) disagrees with its `version` field (`1.0.0`), the bumped version
reproduces the identifier, so the write targets the original's file name. -/
theorem c7_counterexample :
    (checkAdaptationTriggers
      { id := "node_test_adapt_v1.0.0", version := some "1.0.0",
        adaptation_strategy := some { trigger := some "Performance_Degradation" } }
      { simulated_confidence := some (6/10) } 1 1).1 ≠
      { id := "node_test_adapt_v1.0.0", version := some "1.0.0",
        adaptation_strategy := some { trigger := some "Performance_Degradation" } } ∧
    (performAdaptation
      { id := "node_v1.1.0", version := some "1.0.0",
        adaptation_strategy := some { trigger := some "Performance_Degradation" } }
      { trigger := some "Performance_Degradation",
        trigger_condition := some "Low Confidence" } {} "ts").file_name =
      "node_v1.1.0" ++ ".json" := by
  constructor
  · rw [checkTrigger_lowConfidence _ { trigger := some "Performance_Degradation" }
      _ 1 1 (6/10) rfl rfl rfl (by norm_num)]
    intro h
    have h2 := congrArg NodeData.adaptation_strategy h
    simp at h2
  · decide

theorem checkTrigger_eq_none (node : NodeData) (metrics : MetricsView)
    (fd sd : ℚ) (s : AdaptStrategy)
    (hs : node.adaptation_strategy = some s)
    (hf : firedCondition s metrics fd sd = none) :
    checkAdaptationTriggers node metrics fd sd = (node, none) := by
  rw [checkAdaptationTriggers, hs]
  simp [hf]

theorem checkTrigger_eq_some (node : NodeData) (metrics : MetricsView)
    (fd sd : ℚ) (s : AdaptStrategy) (cd : String × Dict)
    (hs : node.adaptation_strategy = some s)
    (hf : firedCondition s metrics fd sd = some cd) :
    checkAdaptationTriggers node metrics fd sd =
      (let s2 := { s with trigger_condition := some cd.1,
                          trigger_details := some cd.2 }
       ({ node with adaptation_strategy := some s2 }, some s2)) := by
  rw [checkAdaptationTriggers, hs]
  simp [hf]

/-- C7 amended: `check_adaptation_triggers` leaves every field of the input
node unchanged except, when a trigger fires, the `adaptation_strategy`
mapping, which gains exactly the `_trigger_condition` and `_trigger_details`
bookkeeping entries (no fire means no change at all); `perform_adaptation`
itself never mutates the original record — it builds the new version on a
deep copy, stamps `derived_from` with the original identifier, and persists
under the file named by the new identifier, which differs from the
original's conventional `<id>.json` whenever the bumped version differs from
the identifier's version suffix. -/
theorem c7_amended_no_mutation (node : NodeData) (metrics : MetricsView)
    (fd sd : ℚ) (strat : AdaptStrategy) (d : MethodDraws) (ts : String)
    (base tail : String) :
    ((checkAdaptationTriggers node metrics fd sd).2 = none →
      (checkAdaptationTriggers node metrics fd sd).1 = node) ∧
    (∀ s2, (checkAdaptationTriggers node metrics fd sd).2 = some s2 →
      ∃ s, node.adaptation_strategy = some s ∧
        s2.trigger = s.trigger ∧ s2.metric_ref = s.metric_ref ∧
        s2.method = s.method ∧ s2.method_params = s.method_params ∧
        (checkAdaptationTriggers node metrics fd sd).1 =
          { node with adaptation_strategy := some s2 }) ∧
    ((performAdaptation node strat d ts).new_node.derived_from = some node.id ∧
     (performAdaptation node strat d ts).file_name =
       (performAdaptation node strat d ts).new_node_id ++ ".json") ∧
    (node.id = base ++ "_v" ++ tail →
      splitOnStr node.id "_v" = [base, tail] →
      getNextVersion (node.version.getD "0.0.0") ≠ tail →
      (performAdaptation node strat d ts).file_name ≠ node.id ++ ".json") := by
  refine ⟨?_, ?_, ⟨performAdaptation_derived node strat d ts,
    performAdaptation_fileName node strat d ts⟩, ?_⟩
  · intro h
    rcases hs : node.adaptation_strategy with _ | s
    · simp [checkAdaptationTriggers, hs]
    · rcases hf : firedCondition s metrics fd sd with _ | cd
      · rw [checkTrigger_eq_none node metrics fd sd s hs hf]
      · rw [checkTrigger_eq_some node metrics fd sd s cd hs hf] at h
        cases h
  · intro s2 h
    rcases hs : node.adaptation_strategy with _ | s
    · rw [checkAdaptationTriggers, hs] at h
      cases h
    · rcases hf : firedCondition s metrics fd sd with _ | cd
      · rw [checkTrigger_eq_none node metrics fd sd s hs hf] at h
        cases h
      · rw [checkTrigger_eq_some node metrics fd sd s cd hs hf] at h ⊢
        simp only [Option.some.injEq] at h
        exact ⟨s, rfl, by rw [← h], by rw [← h], by rw [← h], by rw [← h],
          by rw [← h]⟩
  · intro hid hsplit hver
    rw [performAdaptation_fileName, performAdaptation_newId, idBump, hsplit]
    intro hcontra
    have hdata := congrArg String.data hcontra
    rw [hid] at hdata
    simp only [String.data_append, List.append_assoc] at hdata
    have h3 := List.append_cancel_right
      (List.append_cancel_left (List.append_cancel_left hdata))
    apply hver
    cases hnext : getNextVersion (node.version.getD "0.0.0") with
    | mk nextData =>
        cases tail with
        | mk tailData =>
            rw [hnext] at h3
            simp only at h3
            rw [h3]

/-- Witness for C7's amended claim at the concrete adaptation-test node. -/
theorem c7_amended_no_mutation_witness :
    ((performAdaptation
        { id := "node_test_adapt_v1.0.0", version := some "1.0.0",
          adaptation_strategy := some { trigger := some "Performance_Degradation" } }
        { trigger := some "Performance_Degradation" } {} "ts").new_node.derived_from =
      some "node_test_adapt_v1.0.0" ∧
     (performAdaptation
        { id := "node_test_adapt_v1.0.0", version := some "1.0.0",
          adaptation_strategy := some { trigger := some "Performance_Degradation" } }
        { trigger := some "Performance_Degradation" } {} "ts").file_name =
      (performAdaptation
        { id := "node_test_adapt_v1.0.0", version := some "1.0.0",
          adaptation_strategy := some { trigger := some "Performance_Degradation" } }
        { trigger := some "Performance_Degradation" } {} "ts").new_node_id ++ ".json") ∧
    (performAdaptation
      { id := "node_test_adapt_v1.0.0", version := some "1.0.0",
        adaptation_strategy := some { trigger := some "Performance_Degradation" } }
      { trigger := some "Performance_Degradation" } {} "ts").file_name ≠
      "node_test_adapt_v1.0.0" ++ ".json" := by
  have h := c7_amended_no_mutation
    { id := "node_test_adapt_v1.0.0", version := some "1.0.0",
      adaptation_strategy := some { trigger := some "Performance_Degradation" } }
    { simulated_confidence := some (6/10) } 1 1
    { trigger := some "Performance_Degradation" } {} "ts"
    "node_test_adapt" "1.0.0"
  exact ⟨h.2.2.1, h.2.2.2 (by decide) (by decide) (by decide)⟩

/-! Claim theorems: execution planning. -/

theorem filterMap_if_eq_filter_map {α : Type} (l : List α) (p : α → Prop)
    [DecidablePred p] (f : α → String) :
    (l.filterMap fun n => if p n then some (f n) else none) =
      (l.filter fun n => decide (p n)).map f := by
  induction l with
  | nil => rfl
  | cons x rest ih =>
      by_cases h : p x <;> simp [h, ih]

/-- C2: a linear three-node chain is planned exactly as [A, B, C] whichever
way the store was loaded, and in general the queue is seeded with the
zero-in-degree nodes in their position in the loaded-node collection (the
planner is a pure function of the store, so the order is deterministic). -/
theorem c2_chain_plan (a b c : String) (hab : a ≠ b) (hac : a ≠ c)
    (hbc : b ≠ c) (nodes : List GNode) :
    generateExecutionPlan [⟨a, []⟩, ⟨b, [some a]⟩, ⟨c, [some b]⟩] =
      .plan [a, b, c] ∧
    generateExecutionPlan [⟨c, [some b]⟩, ⟨b, [some a]⟩, ⟨a, []⟩] =
      .plan [a, b, c] ∧
    seedQueue nodes =
      (nodes.filter fun n => decide (indegreeOf nodes n.id = 0)).map
        (fun n => n.id) := by
  have hba := hab.symm
  have hca := hac.symm
  have hcb := hbc.symm
  refine ⟨?_, ?_, ?_⟩
  · simp [generateExecutionPlan, kahnRun, seedQueue, degMap, kahnLoop, decStep,
      indegreeOf, adjOf, nodeIds, hab, hac, hbc, hba, hca, hcb]
  · simp [generateExecutionPlan, kahnRun, seedQueue, degMap, kahnLoop, decStep,
      indegreeOf, adjOf, nodeIds, hab, hac, hbc, hba, hca, hcb]
  · exact filterMap_if_eq_filter_map nodes
      (fun n => indegreeOf nodes n.id = 0) (fun n => n.id)

/-- Witness for C2 at the concrete identifiers A, B, C. -/
theorem c2_chain_plan_witness :
    generateExecutionPlan [⟨"A", []⟩, ⟨"B", [some "A"]⟩, ⟨"C", [some "B"]⟩] =
      .plan ["A", "B", "C"] ∧
    generateExecutionPlan [⟨"C", [some "B"]⟩, ⟨"B", [some "A"]⟩, ⟨"A", []⟩] =
      .plan ["A", "B", "C"] := by
  have h := c2_chain_plan "A" "B" "C" (by decide) (by decide) (by decide) []
  exact ⟨h.1, h.2.1⟩

/-! General cycle-detection development for the planner (claim C3). -/

/-- Resolved dependency references of one node, with multiplicity: the
`node_ref`s of its `depends_on` entries that name a loaded node — exactly
the edges `build_dag` records into this node. -/
def refList (nodes : List GNode) (n : GNode) : List String :=
  n.deps.filterMap fun d =>
    match d with
    | some r => if r ∈ nodeIds nodes then some r else none
    | none => none

/-- A non-empty collection of loaded node identifiers each of which has a
resolved dependency on a member of the collection: exactly the vertex set of
a dependency cycle (every cycle yields such a set, and every such set
contains a cycle, the store being finite). -/
def selfSustaining (nodes : List GNode) (C : List String) : Prop :=
  C ≠ [] ∧ (∀ v ∈ C, v ∈ nodeIds nodes) ∧
  ∀ v ∈ C, ∃ n ∈ nodes, n.id = v ∧ ∃ u ∈ C, u ∈ refList nodes n

theorem lookupA_mem {α : Type} (m : List (String × α)) (k : String) (v : α)
    (h : lookupA m k = some v) : (k, v) ∈ m := by
  induction m with
  | nil => cases h
  | cons kv rest ih =>
      rcases kv with ⟨k0, v0⟩
      by_cases hk : k0 = k
      · subst hk
        rw [lookupA, if_pos rfl] at h
        obtain rfl := Option.some_inj.mp h
        exact List.mem_cons_self _ _
      · rw [lookupA, if_neg hk] at h
        exact List.mem_cons_of_mem _ (ih h)

theorem lookupA_isSome_mem_keys {α : Type} (m : List (String × α)) (k : String)
    (h : (lookupA m k).isSome = true) : k ∈ m.map Prod.fst := by
  induction m with
  | nil => cases h
  | cons kv rest ih =>
      by_cases hk : kv.1 = k
      · exact List.mem_cons.mpr (Or.inl hk.symm)
      · rw [lookupA, if_neg hk] at h
        exact List.mem_cons_of_mem kv.1 (ih h)

theorem lookupA_eq_of_mem {α : Type} (m : List (String × α)) (k : String)
    (v : α) (hnd : (m.map Prod.fst).Nodup) (h : (k, v) ∈ m) :
    lookupA m k = some v := by
  induction m with
  | nil => cases h
  | cons kv rest ih =>
      rcases List.mem_cons.mp h with h0 | h0
      · rw [← h0]
        simp [lookupA]
      · have hk : kv.1 ≠ k := by
          intro hc
          have : kv.1 ∈ rest.map Prod.fst := by
            rw [hc]
            exact List.mem_map.mpr ⟨(k, v), h0, rfl⟩
          exact (List.nodup_cons.mp hnd).1 this
        rw [lookupA, if_neg hk]
        exact ih (List.nodup_cons.mp hnd).2 h0

theorem lookupA_map_of_mem {α β : Type} (l : List α) (key : α → String)
    (val : α → β) (x : α) (hx : x ∈ l) (hnd : (l.map key).Nodup) :
    lookupA (l.map fun y => (key y, val y)) (key x) = some (val x) := by
  induction l with
  | nil => cases hx
  | cons y rest ih =>
      rcases List.mem_cons.mp hx with h0 | h0
      · rw [← h0]
        simp [lookupA]
      · have hk : key y ≠ key x := by
          intro hc
          have : key y ∈ rest.map key := by
            rw [hc]
            exact List.mem_map.mpr ⟨x, h0, rfl⟩
          exact (List.nodup_cons.mp hnd).1 this
        simp only [List.map_cons, lookupA, if_neg hk]
        exact ih h0 (List.nodup_cons.mp hnd).2

theorem lookupA_degMap (nodes : List GNode) (n : GNode) (hn : n ∈ nodes)
    (hnd : (nodeIds nodes).Nodup) :
    lookupA (degMap nodes) n.id = some (indegreeOf nodes n.id) :=
  lookupA_map_of_mem nodes (fun n => n.id) (fun n => indegreeOf nodes n.id)
    n hn hnd

theorem sum_single_key {α : Type} (l : List α) (key : α → String) (f : α → ℕ)
    (x : α) (hx : x ∈ l) (hnd : (l.map key).Nodup) :
    (l.map fun y => if key y = key x then f y else 0).sum = f x := by
  induction l with
  | nil => cases hx
  | cons y rest ih =>
      rcases List.mem_cons.mp hx with h0 | h0
      · subst h0
        have hz : (rest.map fun z => if key z = key x then f z else 0).sum = 0 := by
          rw [List.sum_eq_zero]
          intro w hw
          rcases List.mem_map.mp hw with ⟨u, hu, hueq⟩
          have hk : ¬key u = key x := by
            intro hc
            apply (List.nodup_cons.mp hnd).1
            rw [← hc]
            exact List.mem_map.mpr ⟨u, hu, rfl⟩
          rw [← hueq, if_neg hk]
        simp [hz]
      · have hk : ¬key y = key x := by
          intro hc
          apply (List.nodup_cons.mp hnd).1
          rw [hc]
          exact List.mem_map.mpr ⟨x, h0, rfl⟩
        simp only [List.map_cons, List.sum_cons, if_neg hk, Nat.zero_add]
        exact ih h0 (List.nodup_cons.mp hnd).2

theorem refList_length (nodes : List GNode) (n : GNode) :
    (n.deps.filter fun d =>
      match d with
      | some r => decide (r ∈ nodeIds nodes)
      | none => false).length = (refList nodes n).length := by
  unfold refList
  induction n.deps with
  | nil => rfl
  | cons d rest ih =>
      rcases d with _ | r
      · simpa using ih
      · by_cases hr : r ∈ nodeIds nodes
        · simp [hr, ih]
        · simp [hr, ih]

theorem indegree_eq_refList (nodes : List GNode) (n : GNode) (hn : n ∈ nodes)
    (hnd : (nodeIds nodes).Nodup) :
    indegreeOf nodes n.id = (refList nodes n).length := by
  unfold indegreeOf
  have h2 : (nodes.map fun m =>
      if m.id = n.id then
        (m.deps.filter fun d =>
          match d with
          | some r => decide (r ∈ nodeIds nodes)
          | none => false).length
      else 0) =
    nodes.map fun m => if m.id = n.id then (refList nodes m).length else 0 := by
    apply List.map_congr_left
    intro m _
    by_cases hm : m.id = n.id
    · rw [if_pos hm, if_pos hm, refList_length]
    · rw [if_neg hm, if_neg hm]
  rw [h2]
  exact sum_single_key nodes (fun m => m.id)
    (fun m => (refList nodes m).length) n hn hnd

theorem lookupA_map_dec (deg : List (String × ℕ)) (ts : List String)
    (x : String) :
    lookupA (deg.map fun kv => (kv.1, kv.2 - ts.count kv.1)) x =
      (lookupA deg x).map fun m => m - ts.count x := by
  induction deg with
  | nil => rfl
  | cons kv rest ih =>
      rcases kv with ⟨k0, v0⟩
      by_cases hk : k0 = x
      · subst hk
        simp [lookupA]
      · simp [lookupA, hk, ih]

theorem decStep_nil (deg : List (String × ℕ)) (q : List String) :
    decStep [] deg q = (deg, q) := rfl

theorem decStep_cons (t : String) (ts : List String)
    (deg : List (String × ℕ)) (q : List String) :
    decStep (t :: ts) deg q =
      decStep ts (deg.map fun kv => if kv.1 = t then (kv.1, kv.2 - 1) else kv)
        (if deg.any fun kv => kv.1 = t ∧ kv.2 = 1 then q ++ [t] else q) := rfl

theorem dec_map_single (deg : List (String × ℕ)) (t : String) :
    (deg.map fun kv => if kv.1 = t then (kv.1, kv.2 - 1) else kv) =
      deg.map fun kv => (kv.1, kv.2 - [t].count kv.1) := by
  apply List.map_congr_left
  intro kv _
  by_cases hk : kv.1 = t
  · rw [if_pos hk]
    simp [List.count_cons, hk]
  · rw [if_neg hk]
    simp [List.count_cons, hk]

theorem any_key_one (deg : List (String × ℕ)) (t : String)
    (hnd : (deg.map Prod.fst).Nodup) :
    (deg.any fun kv => kv.1 = t ∧ kv.2 = 1) = true ↔ lookupA deg t = some 1 := by
  rw [List.any_eq_true]
  constructor
  · rintro ⟨kv, hkv, hp⟩
    simp only [decide_eq_true_eq] at hp
    have hkv2 : kv = (t, 1) := by
      rcases kv with ⟨k0, v0⟩
      simp only at hp
      rw [hp.1, hp.2]
    rw [hkv2] at hkv
    exact lookupA_eq_of_mem deg t 1 hnd hkv
  · intro h
    exact ⟨(t, 1), lookupA_mem _ _ _ h, by simp⟩

theorem decStep_keys (ts : List String) (deg : List (String × ℕ)) :
    (deg.map fun kv => (kv.1, kv.2 - ts.count kv.1)).map Prod.fst =
      deg.map Prod.fst := by
  rw [List.map_map]
  apply List.map_congr_left
  intro kv _
  rfl

theorem decStep_spec (ts : List String) (deg : List (String × ℕ))
    (q : List String) (hnd : (deg.map Prod.fst).Nodup) :
    (decStep ts deg q).1 = deg.map (fun kv => (kv.1, kv.2 - ts.count kv.1)) ∧
    ∃ fresh, (decStep ts deg q).2 = q ++ fresh ∧ fresh.Nodup ∧
      ∀ x, x ∈ fresh ↔
        ∃ m, lookupA deg x = some m ∧ 1 ≤ m ∧ m ≤ ts.count x := by
  induction ts generalizing deg q with
  | nil =>
      constructor
      · rw [decStep_nil]
        nth_rewrite 1 [show deg = deg.map id from (List.map_id deg).symm]
        apply List.map_congr_left
        intro kv _
        simp
      · refine ⟨[], by simp [decStep_nil], List.nodup_nil, ?_⟩
        intro x
        simp only [List.not_mem_nil, false_iff, List.count_nil]
        rintro ⟨m, _, h1, h2⟩
        omega
  | cons t ts ih =>
      have hnd1 : ((deg.map fun kv => (kv.1, kv.2 - [t].count kv.1)).map
          Prod.fst).Nodup := by
        rw [decStep_keys]
        exact hnd
      by_cases henq : lookupA deg t = some 1
      · have hb : (deg.any fun kv => kv.1 = t ∧ kv.2 = 1) = true :=
          (any_key_one deg t hnd).mpr henq
        rw [decStep_cons, dec_map_single, if_pos hb]
        obtain ⟨h1, fresh1, h2, h3, h4⟩ :=
          ih (deg.map fun kv => (kv.1, kv.2 - [t].count kv.1)) (q ++ [t]) hnd1
        refine ⟨?_, ⟨t :: fresh1, ?_, ?_, ?_⟩⟩
        · rw [h1, List.map_map]
          apply List.map_congr_left
          intro kv _
          simp only [Function.comp]
          by_cases hk : kv.1 = t <;>
            simp [List.count_cons, List.count_nil, hk] <;> omega
        · rw [h2, List.append_assoc]
          rfl
        · rw [List.nodup_cons]
          refine ⟨?_, h3⟩
          intro hc
          rcases (h4 t).mp hc with ⟨m1, hm1, hm2, hm3⟩
          rw [lookupA_map_dec, henq] at hm1
          simp at hm1
          omega
        · intro x
          by_cases hx : x = t
          · subst hx
            simp only [List.mem_cons, true_or, true_iff]
            exact ⟨1, henq, le_refl 1, by simp [List.count_cons]⟩
          · simp only [List.mem_cons, hx, false_or]
            rw [h4 x, lookupA_map_dec]
            simp only [show ([t].count x) = 0 from by simp [List.count_cons, hx],
              show ((t :: ts).count x) = ts.count x from by
                simp [List.count_cons, hx]]
            rcases hlk : lookupA deg x with _ | m0
            · simp
            · simp only [Option.map_some', Option.some.injEq]
              constructor
              · rintro ⟨m1, hm1, hm2, hm3⟩
                exact ⟨m0, rfl, by omega, by omega⟩
              · rintro ⟨m1, hm1, hm2, hm3⟩
                exact ⟨m0 - 0, rfl, by omega, by omega⟩
      · have hb : (deg.any fun kv => kv.1 = t ∧ kv.2 = 1) = false := by
          rcases Bool.eq_false_or_eq_true (deg.any fun kv => kv.1 = t ∧ kv.2 = 1)
            with h | h
          · exact absurd ((any_key_one deg t hnd).mp h) henq
          · exact h
        rw [decStep_cons, dec_map_single, if_neg (by rw [hb]; simp)]
        obtain ⟨h1, fresh1, h2, h3, h4⟩ :=
          ih (deg.map fun kv => (kv.1, kv.2 - [t].count kv.1)) q hnd1
        refine ⟨?_, ⟨fresh1, h2, h3, ?_⟩⟩
        · rw [h1, List.map_map]
          apply List.map_congr_left
          intro kv _
          simp only [Function.comp]
          by_cases hk : kv.1 = t <;>
            simp [List.count_cons, List.count_nil, hk] <;> omega
        · intro x
          rw [h4 x, lookupA_map_dec]
          by_cases hx : x = t
          · subst hx
            simp only [show ([x].count x) = 1 from by simp,
              show ((x :: ts).count x) = ts.count x + 1 from by
                simp [List.count_cons]]
            rcases hlk : lookupA deg x with _ | m0
            · simp
            · have hm0 : m0 ≠ 1 := by
                intro hc
                apply henq
                rw [← hc]
                exact hlk
              simp only [Option.map_some', Option.some.injEq]
              constructor
              · rintro ⟨m1, hm1, hm2, hm3⟩
                exact ⟨m0, rfl, by omega, by omega⟩
              · rintro ⟨m1, hm1, hm2, hm3⟩
                obtain rfl : m0 = m1 := hm1
                exact ⟨m0 - 1, rfl, by omega, by omega⟩
          · simp only [show ([t].count x) = 0 from by simp [List.count_cons, hx],
              show ((t :: ts).count x) = ts.count x from by
                simp [List.count_cons, hx]]
            rcases hlk : lookupA deg x with _ | m0
            · simp
            · simp only [Option.map_some', Option.some.injEq]
              constructor
              · rintro ⟨m1, hm1, hm2, hm3⟩
                exact ⟨m0, rfl, by omega, by omega⟩
              · rintro ⟨m1, hm1, hm2, hm3⟩
                exact ⟨m0 - 0, rfl, by omega, by omega⟩

theorem count_of_constant {α : Type} [DecidableEq α] (l : List α) (a x : α)
    (h : ∀ y ∈ l, y = a) : l.count x = if a = x then l.length else 0 := by
  by_cases hax : a = x
  · subst hax
    rw [if_pos rfl]
    exact List.count_eq_length.mpr fun b hb => (h b hb).symm
  · rw [if_neg hax]
    exact List.count_eq_zero.mpr fun hxl => hax (h x hxl).symm

theorem count_foldr_append {α : Type} [DecidableEq α] {β : Type}
    (l : List β) (seg : β → List α) (x : α) :
    ((l.foldr (fun b acc => seg b ++ acc) []).count x) =
      (l.map fun b => (seg b).count x).sum := by
  induction l with
  | nil => rfl
  | cons b rest ih =>
      simp only [List.foldr_cons, List.count_append, List.map_cons,
        List.sum_cons, ih]

theorem seg_length_eq_count (nodes : List GNode) (n : GNode) (u : String)
    (hu : u ∈ nodeIds nodes) :
    (n.deps.filterMap fun d =>
      if d = some u ∧ u ∈ nodeIds nodes then some n.id else none).length =
      (refList nodes n).count u := by
  suffices h : ∀ ds : List (Option String),
      (ds.filterMap fun d =>
        if d = some u ∧ u ∈ nodeIds nodes then some n.id else none).length =
      (ds.filterMap fun d =>
        match d with
        | some r => if r ∈ nodeIds nodes then some r else none
        | none => none).count u from h n.deps
  intro ds
  induction ds with
  | nil => rfl
  | cons d rest ih =>
      rcases d with _ | r
      · have h1 : (fun d : Option String =>
            if d = some u ∧ u ∈ nodeIds nodes then some n.id else none) none
              = none := by simp
        have h2 : (fun d : Option String =>
            match d with
            | some r => if r ∈ nodeIds nodes then some r else none
            | none => none) none = none := rfl
        rw [@List.filterMap_cons_none _ _
            (fun d => if d = some u ∧ u ∈ nodeIds nodes then some n.id else none)
            none rest h1,
          @List.filterMap_cons_none _ _
            (fun d =>
              match d with
              | some r => if r ∈ nodeIds nodes then some r else none
              | none => none) none rest h2]
        exact ih
      · by_cases hr : r = u
        · have hru : u = r := hr.symm
          subst hru
          have h1 : (fun d : Option String =>
              if d = some u ∧ u ∈ nodeIds nodes then some n.id else none)
                (some u) = some n.id := by simp [hu]
          have h2 : (fun d : Option String =>
              match d with
              | some r => if r ∈ nodeIds nodes then some r else none
              | none => none) (some u) = some u := by
            show (if u ∈ nodeIds nodes then some u else none) = some u
            rw [if_pos hu]
          rw [@List.filterMap_cons_some _ _
              (fun d => if d = some u ∧ u ∈ nodeIds nodes then some n.id else none)
              (some u) rest n.id h1,
            @List.filterMap_cons_some _ _
              (fun d =>
                match d with
                | some r => if r ∈ nodeIds nodes then some r else none
                | none => none) (some u) rest u h2,
            List.length_cons, List.count_cons_self, ih]
        · by_cases hrS : r ∈ nodeIds nodes
          · have h1 : (fun d : Option String =>
                if d = some u ∧ u ∈ nodeIds nodes then some n.id else none)
                  (some r) = none := by simp [hr]
            have h2 : (fun d : Option String =>
                match d with
                | some r' => if r' ∈ nodeIds nodes then some r' else none
                | none => none) (some r) = some r := by
              show (if r ∈ nodeIds nodes then some r else none) = some r
              rw [if_pos hrS]
            rw [@List.filterMap_cons_none _ _
                (fun d => if d = some u ∧ u ∈ nodeIds nodes then some n.id else none)
                (some r) rest h1,
              @List.filterMap_cons_some _ _
                (fun d =>
                  match d with
                  | some r' => if r' ∈ nodeIds nodes then some r' else none
                  | none => none) (some r) rest r h2,
              List.count_cons]
            have hbe : (r == u) = false := by simp [hr]
            simp only [hbe, Bool.false_eq_true, if_false, Nat.add_zero]
            exact ih
          · have h1 : (fun d : Option String =>
                if d = some u ∧ u ∈ nodeIds nodes then some n.id else none)
                  (some r) = none := by simp [hr]
            have h2 : (fun d : Option String =>
                match d with
                | some r' => if r' ∈ nodeIds nodes then some r' else none
                | none => none) (some r) = none := by
              show (if r ∈ nodeIds nodes then some r else none) = none
              rw [if_neg hrS]
            rw [@List.filterMap_cons_none _ _
                (fun d => if d = some u ∧ u ∈ nodeIds nodes then some n.id else none)
                (some r) rest h1,
              @List.filterMap_cons_none _ _
                (fun d =>
                  match d with
                  | some r' => if r' ∈ nodeIds nodes then some r' else none
                  | none => none) (some r) rest h2]
            exact ih

theorem count_adjOf (nodes : List GNode) (n : GNode) (u : String)
    (hn : n ∈ nodes) (hnd : (nodeIds nodes).Nodup) (hu : u ∈ nodeIds nodes) :
    (adjOf nodes u).count n.id = (refList nodes n).count u := by
  unfold adjOf
  rw [count_foldr_append nodes
    (fun n' => n'.deps.filterMap fun d =>
      if d = some u ∧ u ∈ nodeIds nodes then some n'.id else none) n.id]
  have hsum : (nodes.map fun n' =>
      ((n'.deps.filterMap fun d =>
        if d = some u ∧ u ∈ nodeIds nodes then some n'.id else none).count n.id)) =
    nodes.map fun n' =>
      if n'.id = n.id then
        (n'.deps.filterMap fun d =>
          if d = some u ∧ u ∈ nodeIds nodes then some n'.id else none).length
      else 0 := by
    apply List.map_congr_left
    intro n' _
    apply count_of_constant
    intro y hy
    rcases List.mem_filterMap.mp hy with ⟨d, _, hd⟩
    by_cases hc : d = some u ∧ u ∈ nodeIds nodes
    · rw [if_pos hc] at hd
      exact (Option.some_inj.mp hd).symm
    · rw [if_neg hc] at hd
      cases hd
  rw [hsum]
  rw [sum_single_key nodes (fun m => m.id)
    (fun m => (m.deps.filterMap fun d =>
      if d = some u ∧ u ∈ nodeIds nodes then some m.id else none).length) n hn hnd]
  exact seg_length_eq_count nodes n u hu

theorem filter_shrink (l : List String) (C P : List String) (u : String)
    (huC : u ∉ C) (huP : u ∉ P) :
    (l.filter fun r => decide (r ∈ C) || !decide (r ∈ P)).length =
      (l.filter fun r => decide (r ∈ C) || !decide (r ∈ P ++ [u])).length +
        l.count u := by
  induction l with
  | nil => rfl
  | cons r rest ih =>
      by_cases hr : r = u
      · subst hr
        have hfL : List.filter (fun x => decide (x ∈ C) || !decide (x ∈ P))
            (r :: rest) =
            r :: List.filter (fun x => decide (x ∈ C) || !decide (x ∈ P)) rest :=
          List.filter_cons_of_pos (by simp [huC, huP])
        have hfR : List.filter
            (fun x => decide (x ∈ C) || !decide (x ∈ P ++ [r])) (r :: rest) =
            List.filter (fun x => decide (x ∈ C) || !decide (x ∈ P ++ [r]))
              rest :=
          List.filter_cons_of_neg (by simp [huC])
        rw [hfL, hfR, List.length_cons, List.count_cons_self]
        omega
      · have h2 : decide (r ∈ P ++ [u]) = decide (r ∈ P) := by
          simp [List.mem_append, hr]
        simp only [List.filter_cons, h2, List.count_cons, if_neg hr,
          beq_iff_eq, hr, if_false]
        by_cases hb : (decide (r ∈ C) || !decide (r ∈ P)) = true
        · simp only [hb, if_true, List.length_cons]
          omega
        · simp only [Bool.not_eq_true] at hb
          simp only [hb, Bool.false_eq_true, if_false]
          omega

/-- Invariant of the Kahn worklist loop of `generate_execution_plan` in the
presence of a self-sustaining set `C`: the residual in-degree map keeps the
store's keys; queue and accumulated plan hold only identifiers whose residual
count is zero, without duplication or overlap; and every member of `C` still
owes at least its references that point into `C` (which are never settled)
or at nodes not yet planned. -/
structure KahnInv (nodes : List GNode) (C : List String)
    (Q : List String) (deg : List (String × ℕ)) (P : List String) : Prop where
  keys : deg.map Prod.fst = nodeIds nodes
  qzero : ∀ x ∈ Q, lookupA deg x = some 0
  qnodup : Q.Nodup
  qp : ∀ x ∈ Q, x ∉ P
  pnodup : P.Nodup
  psub : ∀ x ∈ P, x ∈ nodeIds nodes
  pzero : ∀ x ∈ P, lookupA deg x = some 0
  cbound : ∀ n ∈ nodes, n.id ∈ C → ∀ m, lookupA deg n.id = some m →
    ((refList nodes n).filter fun r =>
      decide (r ∈ C) || !decide (r ∈ P)).length ≤ m

theorem kahnInv_c_pos (nodes : List GNode) (C Q : List String)
    (deg : List (String × ℕ)) (P : List String)
    (hC : selfSustaining nodes C) (inv : KahnInv nodes C Q deg P)
    (v : String) (hv : v ∈ C) (m : ℕ) (hm : lookupA deg v = some m) :
    1 ≤ m := by
  obtain ⟨-, -, href⟩ := hC
  obtain ⟨n, hn, hid, u, huC, huref⟩ := href v hv
  subst hid
  have hb := inv.cbound n hn hv m hm
  have hmem : u ∈ (refList nodes n).filter fun r =>
      decide (r ∈ C) || !decide (r ∈ P) := by
    refine List.mem_filter.mpr ⟨huref, ?_⟩
    simp [huC]
  have hpos : 0 < ((refList nodes n).filter fun r =>
      decide (r ∈ C) || !decide (r ∈ P)).length :=
    List.length_pos.mpr (List.ne_nil_of_mem hmem)
  omega

theorem kahnInv_step (nodes : List GNode) (C : List String) (u : String)
    (Q : List String) (deg : List (String × ℕ)) (P : List String)
    (hnd : (nodeIds nodes).Nodup) (hC : selfSustaining nodes C)
    (inv : KahnInv nodes C (u :: Q) deg P) :
    KahnInv nodes C (decStep (adjOf nodes u) deg Q).2
      (decStep (adjOf nodes u) deg Q).1 (P ++ [u]) := by
  have hkeys : deg.map Prod.fst = nodeIds nodes := inv.keys
  have hdnd : (deg.map Prod.fst).Nodup := by
    rw [hkeys]
    exact hnd
  obtain ⟨hdeg1, fresh, hq2, hfnd, hfiff⟩ :=
    decStep_spec (adjOf nodes u) deg Q hdnd
  have hu0 : lookupA deg u = some 0 := inv.qzero u (List.mem_cons_self u Q)
  have huP : u ∉ P := inv.qp u (List.mem_cons_self u Q)
  have huId : u ∈ nodeIds nodes := by
    have h := lookupA_isSome_mem_keys deg u (by rw [hu0]; rfl)
    rwa [hkeys] at h
  have huC : u ∉ C := by
    intro hmem
    have h := kahnInv_c_pos nodes C (u :: Q) deg P hC inv u hmem 0 hu0
    omega
  have hlook : ∀ x, lookupA (decStep (adjOf nodes u) deg Q).1 x =
      (lookupA deg x).map fun m => m - (adjOf nodes u).count x := by
    intro x
    rw [hdeg1]
    exact lookupA_map_dec deg (adjOf nodes u) x
  refine ⟨?_, ?_, ?_, ?_, ?_, ?_, ?_, ?_⟩
  · rw [hdeg1, decStep_keys, hkeys]
  · intro x hx
    rw [hq2] at hx
    rw [hlook x]
    rcases List.mem_append.mp hx with hxQ | hxF
    · rw [inv.qzero x (List.mem_cons_of_mem u hxQ)]
      simp
    · obtain ⟨m, hm, h1, h2⟩ := (hfiff x).mp hxF
      rw [hm]
      simp only [Option.map_some', Option.some_inj]
      omega
  · rw [hq2]
    refine List.Nodup.append (List.nodup_cons.mp inv.qnodup).2 hfnd ?_
    intro x hxQ hxF
    obtain ⟨m, hm, h1, -⟩ := (hfiff x).mp hxF
    have h0 := inv.qzero x (List.mem_cons_of_mem u hxQ)
    rw [h0] at hm
    have := Option.some_inj.mp hm
    omega
  · intro x hx
    rw [hq2] at hx
    intro hxP
    rcases List.mem_append.mp hxP with hxP0 | hxu
    · rcases List.mem_append.mp hx with hxQ | hxF
      · exact inv.qp x (List.mem_cons_of_mem u hxQ) hxP0
      · obtain ⟨m, hm, h1, -⟩ := (hfiff x).mp hxF
        have h0 := inv.pzero x hxP0
        rw [h0] at hm
        have := Option.some_inj.mp hm
        omega
    · have hxu' : x = u := List.mem_singleton.mp hxu
      rcases List.mem_append.mp hx with hxQ | hxF
      · exact (List.nodup_cons.mp inv.qnodup).1 (hxu' ▸ hxQ)
      · obtain ⟨m, hm, h1, -⟩ := (hfiff x).mp hxF
        rw [hxu', hu0] at hm
        have := Option.some_inj.mp hm
        omega
  · rw [List.nodup_append]
    exact ⟨inv.pnodup, List.nodup_singleton u,
      fun x hxP hxu => huP ((List.mem_singleton.mp hxu) ▸ hxP)⟩
  · intro x hx
    rcases List.mem_append.mp hx with hxP | hxu
    · exact inv.psub x hxP
    · have hxe : x = u := List.mem_singleton.mp hxu
      rw [hxe]
      exact huId
  · intro x hx
    rw [hlook x]
    rcases List.mem_append.mp hx with hxP | hxu
    · rw [inv.pzero x hxP]
      simp
    · have hxe : x = u := List.mem_singleton.mp hxu
      rw [hxe, hu0]
      simp
  · intro n hn hnC m' hm'
    rw [hlook n.id] at hm'
    cases hcase : lookupA deg n.id with
    | none =>
        rw [hcase] at hm'
        simp at hm'
    | some m =>
        rw [hcase] at hm'
        simp only [Option.map_some', Option.some_inj] at hm'
        have hb := inv.cbound n hn hnC m hcase
        have hshr := filter_shrink (refList nodes n) C P u huC huP
        have hcnt : (adjOf nodes u).count n.id = (refList nodes n).count u :=
          count_adjOf nodes n u hn hnd huId
        have hk : (refList nodes n).count u ≤
            ((refList nodes n).filter fun r =>
              decide (r ∈ C) || !decide (r ∈ P)).length := by
          have h1 : (refList nodes n).count u =
              ((refList nodes n).filter fun r =>
                decide (r ∈ C) || !decide (r ∈ P)).count u := by
            rw [List.count_filter (by simp [huP])]
          rw [h1]
          exact List.count_le_length _ _
        rw [← hm', hcnt]
        omega

theorem kahnLoop_spec (nodes : List GNode) (C : List String)
    (hnd : (nodeIds nodes).Nodup) (hC : selfSustaining nodes C) :
    ∀ (fuel : ℕ) (Q : List String) (deg : List (String × ℕ)) (P : List String),
      KahnInv nodes C Q deg P →
      (kahnLoop (adjOf nodes) fuel Q deg P).1.Nodup ∧
      (∀ x ∈ (kahnLoop (adjOf nodes) fuel Q deg P).1, x ∈ nodeIds nodes) ∧
      ∀ v ∈ C, v ∉ (kahnLoop (adjOf nodes) fuel Q deg P).1 := by
  intro fuel
  induction fuel with
  | zero =>
      intro Q deg P inv
      refine ⟨inv.pnodup, inv.psub, ?_⟩
      intro v hv hvP
      have h0 := inv.pzero v hvP
      have h1 := kahnInv_c_pos nodes C Q deg P hC inv v hv 0 h0
      omega
  | succ fuel ih =>
      intro Q deg P inv
      cases Q with
      | nil =>
          refine ⟨inv.pnodup, inv.psub, ?_⟩
          intro v hv hvP
          have h0 := inv.pzero v hvP
          have h1 := kahnInv_c_pos nodes C [] deg P hC inv v hv 0 h0
          omega
      | cons u Q2 =>
          exact ih _ _ _ (kahnInv_step nodes C u Q2 deg P hnd hC inv)

theorem kahnInv_init (nodes : List GNode) (C : List String)
    (hnd : (nodeIds nodes).Nodup) :
    KahnInv nodes C (seedQueue nodes) (degMap nodes) [] := by
  refine ⟨?_, ?_, ?_, ?_, List.nodup_nil, ?_, ?_, ?_⟩
  · show (nodes.map fun n => (n.id, indegreeOf nodes n.id)).map Prod.fst =
      nodeIds nodes
    rw [List.map_map]
    rfl
  · intro x hx
    obtain ⟨n, hn, hfn⟩ := List.mem_filterMap.mp hx
    by_cases h0 : indegreeOf nodes n.id = 0
    · rw [if_pos h0] at hfn
      obtain rfl := Option.some_inj.mp hfn
      rw [lookupA_degMap nodes n hn hnd, h0]
    · rw [if_neg h0] at hfn
      cases hfn
  · have hsq : seedQueue nodes =
        (nodes.filter fun n => decide (indegreeOf nodes n.id = 0)).map
          fun n => n.id :=
      filterMap_if_eq_filter_map nodes
        (fun n => indegreeOf nodes n.id = 0) (fun n => n.id)
    rw [hsq]
    have hsub : ((nodes.filter fun n =>
        decide (indegreeOf nodes n.id = 0)).map fun n => n.id).Sublist
          (nodes.map fun n => n.id) :=
      (List.filter_sublist _).map _
    exact hsub.nodup hnd
  · intro x hx hxP
    cases hxP
  · intro x hx
    cases hx
  · intro x hx
    cases hx
  · intro n hn hnC m hm
    rw [lookupA_degMap nodes n hn hnd] at hm
    obtain rfl := Option.some_inj.mp hm
    rw [indegree_eq_refList nodes n hn hnd]
    exact List.length_filter_le _ _

/-- A self-sustaining set of identifiers (the vertex set of any dependency
cycle) forces `generate_execution_plan` to report a cycle: the planner can
never place any of its members, so the plan stays shorter than the store. -/
theorem kahn_cycle_fails (nodes : List GNode) (C : List String)
    (hnd : (nodeIds nodes).Nodup) (hC : selfSustaining nodes C) :
    ∃ cs, generateExecutionPlan nodes = .cycle cs := by
  obtain ⟨hplanNd0, hplanSub0, hplanC0⟩ :=
    kahnLoop_spec nodes C hnd hC
      (nodes.length + (nodes.map fun n => n.deps.length).sum + 1)
      (seedQueue nodes) (degMap nodes) [] (kahnInv_init nodes C hnd)
  have hplanNd : (kahnRun nodes).1.Nodup := hplanNd0
  have hplanSub : ∀ x ∈ (kahnRun nodes).1, x ∈ nodeIds nodes := hplanSub0
  have hplanC : ∀ v ∈ C, v ∉ (kahnRun nodes).1 := hplanC0
  obtain ⟨hCne, hCsub, -⟩ := hC
  obtain ⟨c0, hc0⟩ := List.exists_mem_of_ne_nil C hCne
  have hc0id : c0 ∈ nodeIds nodes := hCsub c0 hc0
  have hlen : (kahnRun nodes).1.length < nodes.length := by
    have hsub2 : ∀ x ∈ (kahnRun nodes).1, x ∈ (nodeIds nodes).erase c0 := by
      intro x hx
      have hne : x ≠ c0 := by
        intro he
        exact hplanC c0 hc0 (he ▸ hx)
      exact (List.mem_erase_of_ne hne).mpr (hplanSub x hx)
    have hcard : (kahnRun nodes).1.toFinset.card ≤
        ((nodeIds nodes).erase c0).toFinset.card := by
      apply Finset.card_le_card
      intro x hx
      exact List.mem_toFinset.mpr (hsub2 x (List.mem_toFinset.mp hx))
    have h1 : (kahnRun nodes).1.toFinset.card = (kahnRun nodes).1.length :=
      List.toFinset_card_of_nodup hplanNd
    have h2 : ((nodeIds nodes).erase c0).toFinset.card ≤
        ((nodeIds nodes).erase c0).length := List.toFinset_card_le _
    have h3 : ((nodeIds nodes).erase c0).length = (nodeIds nodes).length - 1 :=
      List.length_erase_of_mem hc0id
    have h4 : (nodeIds nodes).length = nodes.length := List.length_map _ _
    have h5 : 0 < nodes.length := by
      rcases nodes with _ | ⟨n0, rest⟩
      · cases hc0id
      · simp
    omega
  refine ⟨(kahnRun nodes).2.filterMap fun kv =>
    if 0 < kv.2 then some kv.1 else none, ?_⟩
  simp only [generateExecutionPlan]
  rw [if_neg (by omega)]

/-- C3: for every loaded store whose dependency relation contains a cycle —
witnessed by a self-sustaining set of identifiers, each with a resolved
dependency inside the set — `generate_execution_plan` fails with a cycle
result; the reported set is always exactly the keys of positive residual
in-degree after the sort attempt, in load order; and for the two-node store
where `a` and `b` each depend on the other, the reported cycle set is
`[a, b]`, containing both. -/
theorem c3_cycle_detection (a b : String) (hab : a ≠ b) :
    generateExecutionPlan [⟨a, [some b]⟩, ⟨b, [some a]⟩] = .cycle [a, b] ∧
    (∀ nodes C, (nodeIds nodes).Nodup → selfSustaining nodes C →
      ∃ cs, generateExecutionPlan nodes = .cycle cs) ∧
    (∀ nodes cs, generateExecutionPlan nodes = .cycle cs →
      cs = (kahnRun nodes).2.filterMap fun kv =>
        if 0 < kv.2 then some kv.1 else none) := by
  refine ⟨?_, ?_, ?_⟩
  · have hba : ¬(b = a) := fun h => hab h.symm
    simp [generateExecutionPlan, kahnRun, seedQueue, degMap, kahnLoop, decStep,
      indegreeOf, adjOf, nodeIds, hab, hba]
  · intro nodes C hnd hC
    exact kahn_cycle_fails nodes C hnd hC
  · intro nodes cs h
    simp only [generateExecutionPlan] at h
    by_cases hlen : (kahnRun nodes).1.length = nodes.length
    · rw [if_pos hlen] at h
      cases h
    · rw [if_neg hlen] at h
      injection h with h2
      exact h2.symm

/-- Witness for C3 at the concrete two-node cyclic store A ⇄ B. -/
theorem c3_cycle_detection_witness :
    generateExecutionPlan [⟨"A", [some "B"]⟩, ⟨"B", [some "A"]⟩] =
      .cycle ["A", "B"] :=
  (c3_cycle_detection "A" "B" (by decide)).1

/-- Post-execution check outcome that does not halt: any reported confidence
below 0.7 is covered by a fallback policy of the node. -/
def postNoHalt (node : NodeData) (m : MetricsView) : Prop :=
  ∀ c, m.simulated_confidence = some c → c < 7/10 →
    (node.resilience_policy.find? confidenceFallbackPolicy).isSome = true

/-- A plan step that executes successfully and lets the agent loop continue:
the engine succeeds, the pre-check draw does not simulate an adaptation
trigger, and the post-check does not halt. -/
def stepClean (t : AgentStep) : Prop :=
  (∃ r m, t.run = .execOk r m ∧ postNoHalt t.node m) ∧
  ¬(t.node.adaptation_strategy.isSome = true ∧ t.preDraw < 1/10)

theorem postCheck_no_halt (node : NodeData) (m : MetricsView)
    (hp : postNoHalt node m) :
    (agentPostExecutionCheck node m false).1 = false := by
  cases hsc : m.simulated_confidence with
  | none => simp [agentPostExecutionCheck, hsc]
  | some c =>
      by_cases hc7 : c < 7/10
      · cases hfind : node.resilience_policy.find? confidenceFallbackPolicy with
        | none =>
            have hps := hp c hsc hc7
            rw [hfind] at hps
            simp at hps
        | some p => simp [agentPostExecutionCheck, hsc, hc7, hfind]
      · simp [agentPostExecutionCheck, hsc, hc7]

theorem agentRunStep_clean (st : RunState) (t : AgentStep)
    (hh : st.halt = false) (hc : stepClean t) :
    (agentRunStep st t).2 = true ∧ (agentRunStep st t).1.halt = false := by
  obtain ⟨⟨r, m, hrun, hpost⟩, hpre⟩ := hc
  have hpre2 : agentPreExecutionCheck t.node false t.preDraw = false := by
    unfold agentPreExecutionCheck
    rw [if_neg hpre]
  have hp1 := postCheck_no_halt t.node m hpost
  cases hAd : evaluateAndAdapt t.fileOk t.node m t.feedbackDraw t.scheduledDraw
      t.methodDraws t.nowTs with
  | none => simp [agentRunStep, hh, hrun, hpre2, hp1, hAd]
  | some nid => simp [agentRunStep, hh, hrun, hpre2, hp1, hAd]

theorem agentRunLoop_clean (rest : List AgentStep) (pre : List AgentStep) :
    ∀ st : RunState, st.halt = false → (∀ u ∈ pre, stepClean u) →
      agentRunLoop st (pre ++ rest) = agentRunLoop (agentRunLoop st pre) rest ∧
      (agentRunLoop st pre).halt = false := by
  induction pre with
  | nil =>
      intro st hh _
      exact ⟨rfl, hh⟩
  | cons t pre2 ih =>
      intro st hh hcl
      have hstep := agentRunStep_clean st t hh (hcl t (List.mem_cons_self t pre2))
      have hunf : ∀ l, agentRunLoop st (t :: l) =
          agentRunLoop (agentRunStep st t).1 l := by
        intro l
        show (if (agentRunStep st t).2 = true
            then agentRunLoop (agentRunStep st t).1 l
            else (agentRunStep st t).1) =
          agentRunLoop (agentRunStep st t).1 l
        rw [hstep.1]
        simp
      have hcl2 : ∀ u ∈ pre2, stepClean u :=
        fun u hu => hcl u (List.mem_cons_of_mem t hu)
      obtain ⟨ihEq, ihH⟩ := ih (agentRunStep st t).1 hstep.2 hcl2
      constructor
      · calc agentRunLoop st ((t :: pre2) ++ rest)
            = agentRunLoop (agentRunStep st t).1 (pre2 ++ rest) :=
              hunf (pre2 ++ rest)
          _ = agentRunLoop (agentRunLoop (agentRunStep st t).1 pre2) rest := ihEq
          _ = agentRunLoop (agentRunLoop st (t :: pre2)) rest := by rw [hunf pre2]
      · rw [hunf pre2]
        exact ihH

theorem agentRunStep_halting (st : RunState) (t : AgentStep) (r : Dict)
    (m : MetricsView) (c : ℚ) (hh : st.halt = false)
    (hrun : t.run = .execOk r m)
    (hpre : ¬(t.node.adaptation_strategy.isSome = true ∧ t.preDraw < 1/10))
    (hsc : m.simulated_confidence = some c) (hc7 : c < 7/10)
    (hfind : t.node.resilience_policy.find? confidenceFallbackPolicy = none) :
    agentRunStep st t =
      ({ results := upsert st.results
           ((lookupA st.adapted t.node_id).getD t.node_id) r,
         metadata := upsert st.metadata
           ((lookupA st.adapted t.node_id).getD t.node_id) m,
         halt := true, ok := st.ok, adapted := st.adapted }, false) := by
  have hpre2 : agentPreExecutionCheck t.node false t.preDraw = false := by
    unfold agentPreExecutionCheck
    rw [if_neg hpre]
  have hp : agentPostExecutionCheck t.node m false = (true, none) := by
    simp [agentPostExecutionCheck, hsc, hc7, hfind]
  simp [agentRunStep, hh, hrun, hpre2, hp]

/-- C8: in an agent-controlled run, after a prefix of steps that execute
successfully and pass both agent checks, a step that executes successfully
with a reported confidence below 0.7 and no resilience policy mentioning
"confidence" with action Fallback sets the halt flag: the run reports status
HALTED, the halting node's result and metadata are stored, every earlier
node's stored result and metadata survive unchanged, and the remaining plan
is not executed; whereas on a node that does have such a Fallback policy
the post-check leaves the halt flag as it was and only returns the policy's
`node_ref` suggestion. -/
theorem c8_low_confidence_halt (pre : List AgentStep) (t : AgentStep)
    (post2 : List AgentStep) (r : Dict) (m : MetricsView) (c : ℚ)
    (hclean : ∀ u ∈ pre, stepClean u)
    (hrun : t.run = .execOk r m)
    (hpre : ¬(t.node.adaptation_strategy.isSome = true ∧ t.preDraw < 1/10))
    (hsc : m.simulated_confidence = some c) (hc7 : c < 7/10)
    (hfind : t.node.resilience_policy.find? confidenceFallbackPolicy = none) :
    ((runWithAgentControl (pre ++ t :: post2)).2 = "HALTED" ∧
     (runWithAgentControl (pre ++ t :: post2)).1.halt = true ∧
     lookupA (runWithAgentControl (pre ++ t :: post2)).1.results
       ((lookupA (agentRunLoop {} pre).adapted t.node_id).getD t.node_id) =
         some r ∧
     lookupA (runWithAgentControl (pre ++ t :: post2)).1.metadata
       ((lookupA (agentRunLoop {} pre).adapted t.node_id).getD t.node_id) =
         some m ∧
     (∀ k, k ≠ (lookupA (agentRunLoop {} pre).adapted t.node_id).getD t.node_id →
        lookupA (runWithAgentControl (pre ++ t :: post2)).1.results k =
          lookupA (agentRunLoop {} pre).results k) ∧
     (∀ k, k ≠ (lookupA (agentRunLoop {} pre).adapted t.node_id).getD t.node_id →
        lookupA (runWithAgentControl (pre ++ t :: post2)).1.metadata k =
          lookupA (agentRunLoop {} pre).metadata k)) ∧
    (∀ (node : NodeData) (mv : MetricsView) (halt : Bool)
        (p : ResiliencePolicy) (c2 : ℚ),
      node.resilience_policy.find? confidenceFallbackPolicy = some p →
      mv.simulated_confidence = some c2 → c2 < 7/10 →
      agentPostExecutionCheck node mv halt =
        (halt, some (lookupA p.action_params "node_ref"))) := by
  have hinit : (({} : RunState)).halt = false := rfl
  obtain ⟨hEq, hH⟩ := agentRunLoop_clean (t :: post2) pre {} hinit hclean
  have hstep := agentRunStep_halting (agentRunLoop {} pre) t r m c hH hrun
    hpre hsc hc7 hfind
  have hloop : agentRunLoop (agentRunLoop {} pre) (t :: post2) =
      (agentRunStep (agentRunLoop {} pre) t).1 := by
    show (if (agentRunStep (agentRunLoop {} pre) t).2 = true
        then agentRunLoop (agentRunStep (agentRunLoop {} pre) t).1 post2
        else (agentRunStep (agentRunLoop {} pre) t).1) =
      (agentRunStep (agentRunLoop {} pre) t).1
    rw [hstep]
    simp
  have hfin : agentRunLoop {} (pre ++ t :: post2) =
      { results := upsert (agentRunLoop {} pre).results
          ((lookupA (agentRunLoop {} pre).adapted t.node_id).getD t.node_id) r,
        metadata := upsert (agentRunLoop {} pre).metadata
          ((lookupA (agentRunLoop {} pre).adapted t.node_id).getD t.node_id) m,
        halt := true, ok := (agentRunLoop {} pre).ok,
        adapted := (agentRunLoop {} pre).adapted } := by
    rw [hEq, hloop, hstep]
  refine ⟨⟨?_, ?_, ?_, ?_, ?_, ?_⟩, ?_⟩
  · show (if (agentRunLoop {} (pre ++ t :: post2)).halt = true then "HALTED"
        else if (agentRunLoop {} (pre ++ t :: post2)).ok = true then "SUCCESS"
        else "FAILED") = "HALTED"
    rw [hfin]
    simp
  · show (agentRunLoop {} (pre ++ t :: post2)).halt = true
    rw [hfin]
  · show lookupA (agentRunLoop {} (pre ++ t :: post2)).results
        ((lookupA (agentRunLoop {} pre).adapted t.node_id).getD t.node_id) =
      some r
    rw [hfin]
    exact lookupA_upsert_self _ _ _
  · show lookupA (agentRunLoop {} (pre ++ t :: post2)).metadata
        ((lookupA (agentRunLoop {} pre).adapted t.node_id).getD t.node_id) =
      some m
    rw [hfin]
    exact lookupA_upsert_self _ _ _
  · intro k hk
    show lookupA (agentRunLoop {} (pre ++ t :: post2)).results k =
      lookupA (agentRunLoop {} pre).results k
    rw [hfin]
    exact lookupA_upsert_ne _ _ _ _ hk
  · intro k hk
    show lookupA (agentRunLoop {} (pre ++ t :: post2)).metadata k =
      lookupA (agentRunLoop {} pre).metadata k
    rw [hfin]
    exact lookupA_upsert_ne _ _ _ _ hk
  · intro node mv halt p c2 hfd hsc2 hc72
    simp [agentPostExecutionCheck, hsc2, hc72, hfd]

/-- Concrete halting step for the C8 witness: a successful execution
reporting confidence 0.5 on a node without resilience policies. -/
def c8Step : AgentStep :=
  { node_id := "N1",
    run := .execOk [("value", JVal.num 2)]
      { simulated_confidence := some (1/2) } }

/-- Witness for C8 at a one-step plan whose only node reports confidence 0.5
and declares no fallback policy. -/
theorem c8_low_confidence_halt_witness :
    ((runWithAgentControl [c8Step]).2 = "HALTED" ∧
     (runWithAgentControl [c8Step]).1.halt = true ∧
     lookupA (runWithAgentControl [c8Step]).1.results "N1" =
       some [("value", JVal.num 2)] ∧
     lookupA (runWithAgentControl [c8Step]).1.metadata "N1" =
       some { simulated_confidence := some (1/2) } ∧
     (∀ k, k ≠ "N1" → lookupA (runWithAgentControl [c8Step]).1.results k =
        lookupA (agentRunLoop {} []).results k) ∧
     (∀ k, k ≠ "N1" → lookupA (runWithAgentControl [c8Step]).1.metadata k =
        lookupA (agentRunLoop {} []).metadata k)) ∧
    (∀ (node : NodeData) (mv : MetricsView) (halt : Bool)
        (p : ResiliencePolicy) (c2 : ℚ),
      node.resilience_policy.find? confidenceFallbackPolicy = some p →
      mv.simulated_confidence = some c2 → c2 < 7/10 →
      agentPostExecutionCheck node mv halt =
        (halt, some (lookupA p.action_params "node_ref"))) :=
  c8_low_confidence_halt [] c8Step [] [("value", JVal.num 2)]
    { simulated_confidence := some (1/2) } (1/2)
    (fun u hu => absurd hu (List.not_mem_nil u)) rfl (by simp [c8Step]) rfl
    (by norm_num) rfl

end SCM
